import Mathlib

/-!
Verification development for the quality-insights metrics core.

The analysis functions of the repository (sprint metrics, velocity trend,
test pass rate, flaky-test detection, incident summary, MTTR by severity,
report validation and quality scoring) are shallowly embedded below.
Python floats are modelled as rationals, Python `round(x, 2)`
(round-half-to-even) as `round2`, dictionaries keyed in insertion order as
association lists, and report text as a list of characters.  Functions that
can raise or that return an error field are embedded with `ToolResult`.
-/

/-- Python `round` to the nearest integer, halves to even (bankers rounding). -/
def pyRound (q : ℚ) : ℤ :=
  if q - ⌊q⌋ < 1/2 then ⌊q⌋
  else if 1/2 < q - ⌊q⌋ then ⌊q⌋ + 1
  else if ⌊q⌋ % 2 = 0 then ⌊q⌋ else ⌊q⌋ + 1

/-- Python `round(q, 2)`: round to two decimal places, halves to even. -/
def round2 (q : ℚ) : ℚ := (pyRound (q * 100) : ℚ) / 100

/-- Result of a tool call: a value, a result-level error field, or an
uncaught exception propagating out of the call. -/
inductive ToolResult (α : Type) where
  | ok (value : α)
  | errorField (msg : String)
  | raised (msg : String)
deriving DecidableEq

/-- A Jira ticket as consumed by the sprint-metrics tool (only the fields the
tool reads). -/
structure JiraTicket where
  id : String
  status : String
deriving DecidableEq

/-- A sprint record: name, dates, points and its tickets. -/
structure Sprint where
  sprint_name : String
  start_date : String
  end_date : String
  planned_points : ℕ
  completed_points : ℕ
  tickets : List JiraTicket
deriving DecidableEq

/-- Raw (unrounded) velocity of a sprint: completed over planned times 100,
zero when no points were planned. -/
def sprintVelocityRaw (s : Sprint) : ℚ :=
  if 0 < s.planned_points then (s.completed_points : ℚ) / (s.planned_points : ℚ) * 100
  else 0

/-- Result record of `get_sprint_metrics`. -/
structure SprintMetricsResult where
  sprint_name : String
  planned_points : ℕ
  completed_points : ℕ
  velocity : ℚ
  total_tickets : ℕ
  completed_tickets : ℕ
  in_progress_tickets : ℕ
  blocked_tickets : ℕ
  date_range : String
deriving DecidableEq

/-- The dictionary built by `get_sprint_metrics` for one sprint. -/
def sprintMetricsOf (sprint : Sprint) : SprintMetricsResult :=
  { sprint_name := sprint.sprint_name
    planned_points := sprint.planned_points
    completed_points := sprint.completed_points
    velocity := round2 (sprintVelocityRaw sprint)
    total_tickets := sprint.tickets.length
    completed_tickets := (sprint.tickets.filter (fun t => t.status == "done")).length
    in_progress_tickets := (sprint.tickets.filter (fun t => t.status == "in_progress")).length
    blocked_tickets := (sprint.tickets.filter (fun t => t.status == "blocked")).length
    date_range := sprint.start_date ++ " to " ++ sprint.end_date }

/-- Embedding of `get_sprint_metrics`: look up a sprint by name (first match)
or take the chronologically last sprint when no name is given; an unknown
name yields a result-level error field, and the latest-sprint access raises
on an empty collection.  The source guards the argument with Python
truthiness, so the empty string behaves like the missing argument and also
takes the latest-sprint branch. -/
def get_sprint_metrics (sprints : List Sprint) (sprint_name : Option String) :
    ToolResult SprintMetricsResult :=
  match sprint_name with
  | some name =>
    if name = "" then
      match sprints.getLast? with
      | some sprint => .ok (sprintMetricsOf sprint)
      | none => .raised "IndexError: list index out of range"
    else
      match sprints.find? (fun s => s.sprint_name == name) with
      | some sprint => .ok (sprintMetricsOf sprint)
      | none => .errorField ("Sprint \x27" ++ name ++ "\x27 not found")
  | none =>
    match sprints.getLast? with
    | some sprint => .ok (sprintMetricsOf sprint)
    | none => .raised "IndexError: list index out of range"

/-- Python slice `xs[-n:]` for a non-negative `n`: the whole list when
`n = 0` (since `-0 = 0`), otherwise the last `n` elements. -/
def pyLastSlice (n : ℕ) (xs : List α) : List α :=
  if n = 0 then xs else xs.drop (xs.length - n)

/-- Python `min(x :: xs, key = f)`: first element with minimal key. -/
def pyMinBy (f : α → ℚ) (x : α) (xs : List α) : α :=
  xs.foldl (fun acc y => if f y < f acc then y else acc) x

/-- Python `max(x :: xs, key = f)`: first element with maximal key. -/
def pyMaxBy (f : α → ℚ) (x : α) (xs : List α) : α :=
  xs.foldl (fun acc y => if f acc < f y then y else acc) x

/-- One entry of the per-sprint velocity list. -/
structure SprintVelocity where
  sprint_name : String
  velocity : ℚ
deriving DecidableEq

/-- Result record of `get_velocity_trend`. -/
structure VelocityTrendResult where
  sprints : List SprintVelocity
  average_velocity : ℚ
  velocity_change : ℚ
  trend : String
  lowest_velocity_sprint : SprintVelocity
  highest_velocity_sprint : SprintVelocity
deriving DecidableEq

/-- Embedding of `get_velocity_trend`: window the last `num_sprints` sprints
(Python slice semantics), compute rounded velocities, the mean, the
percentage change from first to last (zero when the first is not positive),
classify the trend, and report the min- and max-velocity sprints.  The
`min`/`max` calls raise on an empty window. -/
def get_velocity_trend (allSprints : List Sprint) (num_sprints : ℕ) :
    ToolResult VelocityTrendResult :=
  let sprints := pyLastSlice num_sprints allSprints
  let sprint_velocities := sprints.map
    (fun s => SprintVelocity.mk s.sprint_name (round2 (sprintVelocityRaw s)))
  let velocities := sprint_velocities.map (fun sv => sv.velocity)
  let avg_velocity : ℚ :=
    if velocities = [] then 0 else velocities.sum / (velocities.length : ℚ)
  let ct : ℚ × String :=
    if 2 ≤ velocities.length then
      let first_velocity := velocities.headI
      let last_velocity := velocities.getLastD 0
      let velocity_change : ℚ :=
        if 0 < first_velocity then (last_velocity - first_velocity) / first_velocity * 100
        else 0
      let trend :=
        if 5 < velocity_change then "improving"
        else if velocity_change < -5 then "declining"
        else "stable"
      (velocity_change, trend)
    else (0, "insufficient_data")
  match sprint_velocities with
  | [] => .raised "ValueError: min() arg is an empty sequence"
  | v :: vs =>
    .ok { sprints := sprint_velocities
          average_velocity := round2 avg_velocity
          velocity_change := round2 ct.1
          trend := ct.2
          lowest_velocity_sprint := pyMinBy (fun sv => sv.velocity) v vs
          highest_velocity_sprint := pyMaxBy (fun sv => sv.velocity) v vs }

/-- One test execution as consumed by the Zephyr tools (only the fields the
tools read). -/
structure TestExecution where
  test_id : String
  test_name : String
  status : String
deriving DecidableEq

/-- A test cycle: name, dates and its executions. -/
structure TestCycle where
  cycle_name : String
  start_date : String
  end_date : String
  executions : List TestExecution
deriving DecidableEq

/-- Result record of `get_test_pass_rate`. -/
structure PassRateResult where
  cycle_name : String
  total_tests : ℕ
  passed : ℕ
  failed : ℕ
  blocked : ℕ
  skipped : ℕ
  pass_rate : ℚ
  date_range : String
deriving DecidableEq

/-- The dictionary built by `get_test_pass_rate` for one cycle. -/
def passRateOf (cycle : TestCycle) : PassRateResult :=
  let total := cycle.executions.length
  let passed := (cycle.executions.filter (fun e => e.status == "passed")).length
  { cycle_name := cycle.cycle_name
    total_tests := total
    passed := passed
    failed := (cycle.executions.filter (fun e => e.status == "failed")).length
    blocked := (cycle.executions.filter (fun e => e.status == "blocked")).length
    skipped := (cycle.executions.filter (fun e => e.status == "skipped")).length
    pass_rate := round2 (if 0 < total then (passed : ℚ) / (total : ℚ) * 100 else 0)
    date_range := cycle.start_date ++ " to " ++ cycle.end_date }

/-- Embedding of `get_test_pass_rate`: look up a cycle by name (first match)
or take the chronologically last cycle when no name is given; an unknown
name yields a result-level error field.  The source guards the argument with
Python truthiness, so the empty string behaves like the missing argument and
also takes the latest-cycle branch. -/
def get_test_pass_rate (cycles : List TestCycle) (cycle_name : Option String) :
    ToolResult PassRateResult :=
  match cycle_name with
  | some name =>
    if name = "" then
      match cycles.getLast? with
      | some cycle => .ok (passRateOf cycle)
      | none => .raised "IndexError: list index out of range"
    else
      match cycles.find? (fun c => c.cycle_name == name) with
      | some cycle => .ok (passRateOf cycle)
      | none => .errorField ("Test cycle \x27" ++ name ++ "\x27 not found")
  | none =>
    match cycles.getLast? with
    | some cycle => .ok (passRateOf cycle)
    | none => .raised "IndexError: list index out of range"

/-- Per-test accumulator of the flaky-test detector (one entry of the
`test_results` dictionary, in insertion order). -/
structure TestAgg where
  test_id : String
  test_name : String
  passed : ℕ
  total : ℕ
deriving DecidableEq

/-- Record one execution into the accumulator list: update the entry with the
same `test_id` (the name is overwritten by the latest execution), or append a
fresh entry.  Mirrors the `defaultdict` updates of `get_flaky_tests`. -/
def recordExecution (acc : List TestAgg) (e : TestExecution) : List TestAgg :=
  if acc.any (fun a => a.test_id == e.test_id) then
    acc.map (fun a =>
      if a.test_id == e.test_id then
        { a with test_name := e.test_name
                 total := a.total + 1
                 passed := a.passed + (if e.status == "passed" then 1 else 0) }
      else a)
  else
    acc ++ [{ test_id := e.test_id, test_name := e.test_name
              passed := (if e.status == "passed" then 1 else 0), total := 1 }]

/-- Scan every execution of every cycle, grouping by `test_id`. -/
def aggregateExecutions (cycles : List TestCycle) : List TestAgg :=
  (cycles.flatMap (fun c => c.executions)).foldl recordExecution []

/-- Per-test pass rate as a fraction, with the redundant zero-total guard of
the source. -/
def flakyRate (a : TestAgg) : ℚ :=
  if 0 < a.total then (a.passed : ℚ) / (a.total : ℚ) else 0

/-- The flakiness criterion: enough executions and a pass rate strictly
between 0 and the threshold. -/
def isFlaky (threshold : ℚ) (min_executions : ℕ) (a : TestAgg) : Bool :=
  decide (min_executions ≤ a.total) &&
    (decide (0 < flakyRate a) && decide (flakyRate a < threshold))

/-- One entry of the reported flaky-test list. -/
structure FlakyEntry where
  test_id : String
  test_name : String
  executions : ℕ
  passed : ℕ
  failed : ℕ
  pass_rate : ℚ
deriving DecidableEq

/-- The dictionary appended for a flaky test. -/
def flakyEntryOf (a : TestAgg) : FlakyEntry :=
  { test_id := a.test_id, test_name := a.test_name, executions := a.total
    passed := a.passed, failed := a.total - a.passed
    pass_rate := round2 (flakyRate a * 100) }

/-- Ordering of flaky entries by reported (rounded) pass rate. -/
def flakyLE (x y : FlakyEntry) : Prop := x.pass_rate ≤ y.pass_rate

instance : DecidableRel flakyLE :=
  fun x y => inferInstanceAs (Decidable (x.pass_rate ≤ y.pass_rate))

/-- Result record of `get_flaky_tests`. -/
structure FlakyResult where
  flaky_tests : List FlakyEntry
  total_flaky_tests : ℕ
  threshold : ℚ
  min_executions : ℕ
deriving DecidableEq

/-- Embedding of `get_flaky_tests`: aggregate executions per test across all
cycles, keep the flaky ones, and sort ascending by reported pass rate.
The Python list sort is a stable ascending sort; it is modelled by the stable
`List.insertionSort`. -/
def get_flaky_tests (cycles : List TestCycle) (threshold : ℚ) (min_executions : ℕ) :
    FlakyResult :=
  let aggs := aggregateExecutions cycles
  let pre := (aggs.filter (isFlaky threshold min_executions)).map flakyEntryOf
  let sorted := pre.insertionSort flakyLE
  { flaky_tests := sorted
    total_flaky_tests := sorted.length
    threshold := threshold
    min_executions := min_executions }

/-- An incident record.  Timestamps are modelled as rational epoch seconds:
the source parses ISO-8601 strings into timezone-aware datetimes and all
subsequent arithmetic is on instants, which the parsing merely decodes. -/
structure Incident where
  id : String
  title : String
  severity : String
  reported_at : ℚ
  resolved_at : Option ℚ
  affected_users : ℕ
deriving DecidableEq

/-- Per-incident summary entry of `get_incident_summary`. -/
structure IncidentBrief where
  id : String
  title : String
  severity : String
  reported_at : ℚ
  resolved : Bool
  affected_users : ℕ
deriving DecidableEq

/-- Result record of `get_incident_summary`. -/
structure IncidentSummary where
  total_incidents : ℕ
  by_severity : List (String × ℕ)
  resolved : ℕ
  unresolved : ℕ
  affected_users_total : ℕ
  severity_filter : String
  incidents : List IncidentBrief
deriving DecidableEq

/-- Python `str.lower` (ASCII case folding). -/
def lowerStr (s : String) : String := String.map Char.toLower s

/-- Increment the count of a severity in the insertion-ordered breakdown
(the `defaultdict(int)` of the source). -/
def bumpSeverity (acc : List (String × ℕ)) (sev : String) : List (String × ℕ) :=
  if acc.any (fun p => p.1 == sev) then
    acc.map (fun p => if p.1 == sev then (p.1, p.2 + 1) else p)
  else acc ++ [(sev, 1)]

/-- Embedding of `get_incident_summary`: keep incidents reported within the
trailing `days`-day window from `now` (inclusive bound), optionally filter
by lowercased severity, and summarise.  The source guards the severity
argument with Python truthiness, so the empty string behaves like the
missing argument: no filter is applied and the reported filter is all. -/
def get_incident_summary (incidents : List Incident) (severity : Option String)
    (days : ℤ) (now : ℚ) : IncidentSummary :=
  let cutoff : ℚ := now - (days : ℚ) * 86400
  let recent : List Incident :=
    incidents.filter (fun inc => decide (cutoff ≤ inc.reported_at))
  let recent2 : List Incident :=
    match severity with
    | some sev =>
      if sev = "" then recent
      else recent.filter (fun inc => inc.severity == lowerStr sev)
    | none => recent
  let total := recent2.length
  let resolvedCount := (recent2.filter (fun inc => inc.resolved_at.isSome)).length
  { total_incidents := total
    by_severity := recent2.foldl (fun acc inc => bumpSeverity acc inc.severity) []
    resolved := resolvedCount
    unresolved := total - resolvedCount
    affected_users_total := (recent2.map (fun inc => inc.affected_users)).sum
    severity_filter :=
      match severity with
      | some s => if s = "" then "all" else s
      | none => "all"
    incidents := recent2.map (fun inc =>
      { id := inc.id, title := inc.title, severity := inc.severity
        reported_at := inc.reported_at, resolved := inc.resolved_at.isSome
        affected_users := inc.affected_users }) }

/-- Append a resolution time to the list of a severity in the insertion-ordered
`severity_times` dictionary. -/
def addTime (acc : List (String × List ℚ)) (sev : String) (t : ℚ) :
    List (String × List ℚ) :=
  if acc.any (fun p => p.1 == sev) then
    acc.map (fun p => if p.1 == sev then (p.1, p.2 ++ [t]) else p)
  else acc ++ [(sev, [t])]

/-- Resolution times (in hours) of the resolved incidents, grouped by
severity in first-encounter order. -/
def severityTimes (incidents : List Incident) : List (String × List ℚ) :=
  incidents.foldl (fun acc inc =>
    match inc.resolved_at with
    | some r => addTime acc inc.severity ((r - inc.reported_at) / 3600)
    | none => acc) []

/-- Mean of a list of rationals with the zero-length guard of the source. -/
def listMean (ts : List ℚ) : ℚ :=
  if 0 < ts.length then ts.sum / (ts.length : ℚ) else 0

/-- Result record of `get_mttr_by_severity`. -/
structure MttrResult where
  mttr_by_severity : List (String × ℚ)
  overall_mttr : ℚ
  resolved_incidents_by_severity : List (String × ℕ)
  total_resolved_incidents : ℕ
deriving DecidableEq

/-- Embedding of `get_mttr_by_severity`: mean resolution time per severity
over resolved incidents of the whole collection, plus one overall mean. -/
def get_mttr_by_severity (incidents : List Incident) : MttrResult :=
  let st := severityTimes incidents
  let all_times := (st.map (fun p => p.2)).flatten
  { mttr_by_severity := st.map (fun p => (p.1, round2 (listMean p.2)))
    overall_mttr :=
      if 0 < all_times.length then round2 (all_times.sum / (all_times.length : ℚ))
      else 0
    resolved_incidents_by_severity := st.map (fun p => (p.1, p.2.length))
    total_resolved_incidents := all_times.length }

/-- Python substring test `pat in s` on character lists. -/
def isSubOf (pat : List Char) : List Char → Bool
  | [] => pat.isEmpty
  | c :: rest => pat.isPrefixOf (c :: rest) || isSubOf pat rest

/-- Python `str.lower` on a character list (ASCII case folding). -/
def toLowerCs (s : List Char) : List Char := s.map Char.toLower

/-- Accumulator for Python `str.split()`: the reversed current word and the
remaining input. -/
def pyWordsAux : List Char → List Char → List (List Char)
  | [], cur => if cur.isEmpty then [] else [cur.reverse]
  | c :: rest, cur =>
    if c.isWhitespace then
      if cur.isEmpty then pyWordsAux rest []
      else cur.reverse :: pyWordsAux rest []
    else pyWordsAux rest (c :: cur)

/-- Python `str.split()` with no argument: maximal whitespace-free runs. -/
def pyWords (s : List Char) : List (List Char) := pyWordsAux s []

/-- Python string count of the two-newline pattern: non-overlapping
occurrences of a double newline, scanning left to right. -/
def countDoubleNewline : List Char → ℕ
  | '\n' :: '\n' :: rest => 1 + countDoubleNewline rest
  | _ :: rest => countDoubleNewline rest
  | [] => 0

/-- The fixed vocabulary of required section keywords. -/
def required_sections : List String :=
  ["jira", "sprint", "velocity", "zephyr", "test", "incident", "problem", "summary"]

/-- Result record of `validate_report_format`. -/
structure ValidateResult where
  valid : Bool
  missing_sections : List String
  errors : List String
  warnings : List String
  word_count : ℕ
deriving DecidableEq

/-- Embedding of `validate_report_format`: case-insensitive required-section
check, a hard error below 100 words, and soft warnings. -/
def validate_report_format (report_text : List Char) : ValidateResult :=
  let report_lower := toLowerCs report_text
  let missing_sections :=
    required_sections.filter (fun sec => !(isSubOf sec.toList report_lower))
  let word_count := (pyWords report_text).length
  let errors :=
    if word_count < 100 then ["Report is too short (less than 100 words)"] else []
  let warnings :=
    (if 2000 < word_count then
      ["Report is very long (over 2000 words) - consider condensing"] else []) ++
    (if !(report_text.any Char.isDigit) then
      ["Report should include specific metrics and numbers"] else []) ++
    (if !(isSubOf "recommend".toList report_lower) &&
        !(isSubOf "suggest".toList report_lower) then
      ["Report should include actionable recommendations"] else [])
  { valid := errors.isEmpty && missing_sections.isEmpty
    missing_sections := missing_sections
    errors := errors
    warnings := warnings
    word_count := word_count }

/-- Result record of `check_report_quality`. -/
structure QualityResult where
  quality_score : ℤ
  grade : String
  strengths : List String
  improvement_areas : List String
  recommendations : List String
  passes_quality_check : Bool
deriving DecidableEq

/-- Embedding of `_score_to_grade`. -/
def scoreToGrade (score : ℤ) : String :=
  if 90 ≤ score then "A"
  else if 80 ≤ score then "B"
  else if 70 ≤ score then "C"
  else if 60 ≤ score then "D"
  else "F"

/-- Embedding of `check_report_quality`: six signal checks, fixed penalties,
floor at zero, letter grade and pass flag. -/
def check_report_quality (report_text : List Char) : QualityResult :=
  let report_lower := toLowerCs report_text
  let hasSummary :=
    isSubOf "executive summary".toList report_lower ||
      isSubOf "summary".toList report_lower
  let has_percentages := isSubOf "%".toList report_text
  let has_numbers :=
    (pyWords report_text).any (fun w => !w.isEmpty && w.all Char.isDigit)
  let hasMetrics := has_percentages && has_numbers
  let hasProblem :=
    (["problem", "issue", "concern", "decline", "failure"] : List String).any
      (fun k => isSubOf k.toList report_lower)
  let hasRecommendation :=
    (["recommend", "suggest", "should", "action"] : List String).any
      (fun k => isSubOf k.toList report_lower)
  let sources_mentioned :=
    ((["jira", "sprint", "zephyr", "test", "incident"] : List String).filter
      (fun k => isSubOf k.toList report_lower)).length
  let hasCoverage := decide (3 ≤ sources_mentioned)
  let has_sections := decide (2 ≤ countDoubleNewline report_text)
  let score : ℤ :=
    100 - (if hasSummary then 0 else 20) - (if hasMetrics then 0 else 15) -
      (if hasProblem then 0 else 15) - (if hasRecommendation then 0 else 20) -
      (if hasCoverage then 0 else 15) - (if has_sections then 0 else 15)
  let score := max 0 score
  { quality_score := score
    grade := scoreToGrade score
    strengths :=
      (if hasSummary then ["Includes executive summary"] else []) ++
      (if hasMetrics then ["Includes specific metrics and data points"] else []) ++
      (if hasProblem then ["Identifies specific problems"] else []) ++
      (if hasRecommendation then ["Provides actionable recommendations"] else []) ++
      (if hasCoverage then ["Covers multiple data sources"] else []) ++
      (if has_sections then ["Well-structured with clear sections"] else [])
    improvement_areas :=
      (if hasSummary then [] else ["Missing executive summary"]) ++
      (if hasMetrics then [] else ["Lacks specific metrics"]) ++
      (if hasProblem then [] else ["Doesn\x27t clearly identify problems"]) ++
      (if hasRecommendation then [] else ["Lacks actionable recommendations"]) ++
      (if hasCoverage then [] else ["Limited data source coverage"]) ++
      (if has_sections then [] else ["Poor structure and organization"])
    recommendations :=
      (if hasSummary then [] else ["Add an executive summary at the beginning"]) ++
      (if hasMetrics then []
       else ["Include specific percentages, counts, and measurements"]) ++
      (if hasProblem then []
       else ["Explicitly call out problem areas and quality concerns"]) ++
      (if hasRecommendation then []
       else ["Add specific recommendations for addressing identified issues"]) ++
      (if hasCoverage then []
       else ["Ensure analysis covers Jira, Zephyr, and Incident data"]) ++
      (if has_sections then [] else ["Organize report into clear sections"])
    passes_quality_check := decide (70 ≤ score) }

/-- Sprint with no planned points, used for zero-denominator checks. -/
def zeroSprint : Sprint :=
  { sprint_name := "Sprint Zero", start_date := "2024-01-01", end_date := "2024-01-12"
    planned_points := 0, completed_points := 10, tickets := [] }

/-- Test cycle with no executions, used for zero-denominator checks. -/
def emptyCycle : TestCycle :=
  { cycle_name := "Empty-Cycle", start_date := "2024-01-01", end_date := "2024-01-05"
    executions := [] }

/-- Sprint with velocity 96.0 (96 of 100 points). -/
def demoSprintA : Sprint :=
  { sprint_name := "Sprint 2024-12-1", start_date := "2024-12-02", end_date := "2024-12-13"
    planned_points := 100, completed_points := 96, tickets := [] }

/-- Sprint with velocity 72.92 (35 of 48 points), the scenario sprint of the
specification. -/
def demoSprintB : Sprint :=
  { sprint_name := "Sprint 2024-12-2", start_date := "2024-12-16", end_date := "2024-12-27"
    planned_points := 48, completed_points := 35, tickets := [] }

/-- Test cycle with one execution of each status. -/
def demoCycle : TestCycle :=
  { cycle_name := "Regression-Dec-Week4", start_date := "2024-12-23"
    end_date := "2024-12-27"
    executions :=
      [{ test_id := "QT-101", test_name := "login flow", status := "passed" },
       { test_id := "QT-102", test_name := "checkout", status := "failed" },
       { test_id := "QT-103", test_name := "search", status := "blocked" },
       { test_id := "QT-104", test_name := "profile", status := "skipped" }] }

/-- Three cycles in which test QT-205 runs pass, fail, fail: the flaky-test
scenario of the specification. -/
def demoFlakyCycles : List TestCycle :=
  [{ cycle_name := "Week1", start_date := "2024-12-02", end_date := "2024-12-06"
     executions := [{ test_id := "QT-205", test_name := "payment retry", status := "passed" }] },
   { cycle_name := "Week2", start_date := "2024-12-09", end_date := "2024-12-13"
     executions := [{ test_id := "QT-205", test_name := "payment retry", status := "failed" }] },
   { cycle_name := "Week3", start_date := "2024-12-16", end_date := "2024-12-20"
     executions := [{ test_id := "QT-205", test_name := "payment retry", status := "failed" }] }]

/-- One cycle in which test QT-300 passes all three runs. -/
def alwaysPassCycles : List TestCycle :=
  [{ cycle_name := "Perf1", start_date := "2024-12-02", end_date := "2024-12-06"
     executions :=
       [{ test_id := "QT-300", test_name := "stable check", status := "passed" },
        { test_id := "QT-300", test_name := "stable check", status := "passed" },
        { test_id := "QT-300", test_name := "stable check", status := "passed" }] }]

/-- Two incidents: a resolved critical one (6.5 hours to resolve) and an
unresolved high one. -/
def demoIncidents : List Incident :=
  [{ id := "INC-301", title := "API outage", severity := "critical"
     reported_at := 0, resolved_at := some 23400, affected_users := 150 },
   { id := "INC-302", title := "Slow queries", severity := "high"
     reported_at := 3600, resolved_at := none, affected_users := 40 }]

/-- Short report containing all six quality signals. -/
def demoReport : List Char :=
  "summary jira sprint test\n\nproblem 50%\n\nrecommend 5".toList

/-- The rounded velocities of the last `n` sprints (the analysis window of
the velocity trend for a positive `n`). -/
def lastWindowVelocities (allSprints : List Sprint) (n : ℕ) : List ℚ :=
  (allSprints.drop (allSprints.length - n)).map (fun s => round2 (sprintVelocityRaw s))

/-- Percentage change from the first to the last velocity of the window,
zero when the first velocity is zero. -/
def windowChange (allSprints : List Sprint) (n : ℕ) : ℚ :=
  if (lastWindowVelocities allSprints n).headI = 0 then 0
  else ((lastWindowVelocities allSprints n).getLastD 0
    - (lastWindowVelocities allSprints n).headI)
    / (lastWindowVelocities allSprints n).headI * 100

theorem floor_le_pyRound (q : ℚ) : ⌊q⌋ ≤ pyRound q := by
  simp only [pyRound]
  split
  · exact le_rfl
  · split
    · omega
    · split <;> omega

theorem pyRound_le_ceil (q : ℚ) : pyRound q ≤ ⌈q⌉ := by
  simp only [pyRound]
  split
  · exact Int.floor_le_ceil q
  · rename_i h1
    split
    · rename_i h2
      have hq : (⌊q⌋ : ℚ) < q := by linarith
      have := Int.lt_ceil.mpr hq
      omega
    · rename_i h2
      have heq : q - ⌊q⌋ = 1/2 := le_antisymm (not_lt.mp h2) (not_lt.mp h1)
      have hq : (⌊q⌋ : ℚ) < q := by linarith
      have := Int.lt_ceil.mpr hq
      have hfc := Int.floor_le_ceil q
      split <;> omega

theorem abs_pyRound_sub_le (q : ℚ) : |(pyRound q : ℚ) - q| ≤ 1/2 := by
  have h0 : (⌊q⌋ : ℚ) ≤ q := Int.floor_le q
  have h1 : q < ⌊q⌋ + 1 := Int.lt_floor_add_one q
  rw [abs_le]
  simp only [pyRound]
  split
  · rename_i h; constructor <;> [linarith; linarith]
  · rename_i h
    split
    · rename_i h2; push_cast; constructor <;> linarith
    · rename_i h2
      have heq : q - ⌊q⌋ = 1/2 := le_antisymm (not_lt.mp h2) (not_lt.mp h)
      split <;> (push_cast; constructor <;> linarith)

theorem pyRound_eq_low (q : ℚ) (f : ℤ) (h0 : (f : ℚ) ≤ q) (h1 : q - f < 1/2) :
    pyRound q = f := by
  have hf : ⌊q⌋ = f := Int.floor_eq_iff.mpr ⟨h0, by linarith⟩
  unfold pyRound
  rw [hf, if_pos h1]

theorem pyRound_eq_high (q : ℚ) (f : ℤ) (h0 : 1/2 < q - f) (h1 : q < f + 1) :
    pyRound q = f + 1 := by
  have hf : ⌊q⌋ = f := Int.floor_eq_iff.mpr ⟨by linarith, by linarith⟩
  have h2 : ¬ (q - (f : ℚ) < 1/2) := by linarith
  unfold pyRound
  rw [hf, if_neg h2, if_pos h0]

theorem round2_zero : round2 0 = 0 := by
  have h := pyRound_eq_low 0 0 (by norm_num) (by norm_num)
  simp [round2, h]

theorem round2_nonneg (q : ℚ) (hq : 0 ≤ q) : 0 ≤ round2 q := by
  have h := floor_le_pyRound (q * 100)
  have h0 : (0 : ℤ) ≤ ⌊q * 100⌋ := Int.floor_nonneg.mpr (by positivity)
  unfold round2
  have : (0 : ℚ) ≤ (pyRound (q * 100) : ℚ) := by exact_mod_cast le_trans h0 h
  positivity

theorem round2_le_100 (q : ℚ) (hq : q ≤ 100) : round2 q ≤ 100 := by
  have h := pyRound_le_ceil (q * 100)
  have hc : ⌈q * 100⌉ ≤ 10000 := Int.ceil_le.mpr (by push_cast; linarith)
  unfold round2
  rw [div_le_iff₀ (by norm_num : (0 : ℚ) < 100)]
  have : (pyRound (q * 100) : ℚ) ≤ (10000 : ℚ) := by exact_mod_cast le_trans h hc
  linarith

theorem abs_round2_sub_le (q : ℚ) : |round2 q - q| ≤ 1/200 := by
  have h := abs_pyRound_sub_le (q * 100)
  unfold round2
  have heq : (pyRound (q * 100) : ℚ) / 100 - q = ((pyRound (q * 100) : ℚ) - q * 100) / 100 := by
    ring
  rw [heq, abs_div]
  have habs : |(100 : ℚ)| = 100 := by norm_num
  rw [habs, div_le_iff₀ (by norm_num : (0 : ℚ) < 100)]
  linarith

theorem round2_96 : round2 (96 : ℚ) = 96 := by
  have h : (96 : ℚ) * 100 = 9600 := by norm_num
  unfold round2
  rw [h, pyRound_eq_low 9600 9600 (by norm_num) (by norm_num)]
  norm_num

theorem round2_evalB : round2 ((875 : ℚ)/12) = 7292/100 := by
  have h : ((875 : ℚ)/12) * 100 = 21875/3 := by norm_num
  unfold round2
  rw [h, pyRound_eq_high ((21875 : ℚ)/3) 7291 (by norm_num) (by norm_num)]
  norm_num

/-- Claim C3: the ratios with guarded zero denominators (planned_points = 0,
total_tests = 0, empty MTTR sample) do return 0.0, but the velocity-trend
operation is NOT total on an empty sprint collection: the `min` over the
empty velocity list raises a ValueError, contradicting the defensive-edge-case
claim.  The last conjunct evaluates the code at the failing input. -/
theorem C3_zero_denominators :
    (sprintMetricsOf zeroSprint).velocity = 0 ∧
    (passRateOf emptyCycle).pass_rate = 0 ∧
    get_mttr_by_severity [] =
      { mttr_by_severity := [], overall_mttr := 0,
        resolved_incidents_by_severity := [], total_resolved_incidents := 0 } ∧
    ∀ n : ℕ, get_velocity_trend [] n =
      ToolResult.raised "ValueError: min() arg is an empty sequence" := by
  refine ⟨?_, ?_, rfl, ?_⟩
  · simp [sprintMetricsOf, zeroSprint, sprintVelocityRaw, round2_zero]
  · simp [passRateOf, emptyCycle, round2_zero]
  · intro n
    have hslice : pyLastSlice n ([] : List Sprint) = [] := by
      unfold pyLastSlice; split <;> simp
    simp [get_velocity_trend, hslice]

/-- Claim C4: the sprint-metrics lookup reports the metrics of a sprint of
the collection; its velocity field is completed over planned points times
100 rounded to two decimals, exactly 0 when no points were planned, and the
scenario sprint with 35 of 48 points yields velocity 72.92. -/
theorem C4_sprint_velocity :
    (∀ (sprints : List Sprint) (oname : Option String) (r : SprintMetricsResult),
        get_sprint_metrics sprints oname = ToolResult.ok r →
          ∃ s ∈ sprints, r = sprintMetricsOf s) ∧
    (∀ s : Sprint,
        (0 < s.planned_points →
          (sprintMetricsOf s).velocity =
            round2 ((s.completed_points : ℚ) / (s.planned_points : ℚ) * 100)) ∧
        (s.planned_points = 0 → (sprintMetricsOf s).velocity = 0)) ∧
    (sprintMetricsOf demoSprintB).velocity = 7292/100 := by
  refine ⟨?_, ?_, ?_⟩
  · intro sprints oname r h
    cases oname with
    | some name =>
      by_cases hne : name = ""
      · subst hne
        cases hg : sprints.getLast? with
        | none => simp [get_sprint_metrics, hg] at h
        | some s =>
          refine ⟨s, List.mem_of_getLast?_eq_some hg, ?_⟩
          simp [get_sprint_metrics, hg] at h
          exact h.symm
      · cases hf : sprints.find? (fun s => s.sprint_name == name) with
        | none => simp [get_sprint_metrics, hne, hf] at h
        | some s =>
          refine ⟨s, List.mem_of_find?_eq_some hf, ?_⟩
          simp [get_sprint_metrics, hne, hf] at h
          exact h.symm
    | none =>
      cases hg : sprints.getLast? with
      | none => simp [get_sprint_metrics, hg] at h
      | some s =>
        refine ⟨s, List.mem_of_getLast?_eq_some hg, ?_⟩
        simp [get_sprint_metrics, hg] at h
        exact h.symm
  · intro s
    constructor
    · intro h; simp [sprintMetricsOf, sprintVelocityRaw, h]
    · intro h; simp [sprintMetricsOf, sprintVelocityRaw, h, round2_zero]
  · show round2 (sprintVelocityRaw demoSprintB) = 7292/100
    have h1 : sprintVelocityRaw demoSprintB = 875/12 := by
      norm_num [sprintVelocityRaw, demoSprintB]
    rw [h1, round2_evalB]

/-- Witness for C4 at a concrete lookup. -/
theorem C4_witness :
    ∃ s ∈ [demoSprintB], sprintMetricsOf demoSprintB = sprintMetricsOf s :=
  C4_sprint_velocity.1 [demoSprintB] (some "Sprint 2024-12-2")
    (sprintMetricsOf demoSprintB) rfl

/-- Counterexample for C9 as stated: the empty string is absent from the
collections, yet Python truthiness sends the lookup to the latest-element
branch: with a nonempty collection the result is the latest metrics with no
error field, and with an empty collection an IndexError escapes the call. -/
theorem C9_counterexample :
    get_sprint_metrics [demoSprintA] (some "") =
      ToolResult.ok (sprintMetricsOf demoSprintA) ∧
    get_sprint_metrics [] (some "") =
      ToolResult.raised "IndexError: list index out of range" ∧
    get_test_pass_rate [demoCycle] (some "") =
      ToolResult.ok (passRateOf demoCycle) ∧
    get_test_pass_rate [] (some "") =
      ToolResult.raised "IndexError: list index out of range" :=
  ⟨rfl, rfl, rfl, rfl⟩

/-- Claim C9 (amended): looking up a non-empty sprint name or a non-empty
cycle name that is absent from the collection returns a result mapping with
an error field; no exception escapes the lookup.  The non-emptiness proviso
is forced by Python truthiness: the empty string takes the latest-element
branch instead of the lookup. -/
theorem C9_not_found (sprints : List Sprint) (cycles : List TestCycle)
    (sname cname : String)
    (hse : sname ≠ "") (hce : cname ≠ "")
    (hs : ∀ s ∈ sprints, s.sprint_name ≠ sname)
    (hc : ∀ c ∈ cycles, c.cycle_name ≠ cname) :
    get_sprint_metrics sprints (some sname) =
      ToolResult.errorField ("Sprint \x27" ++ sname ++ "\x27 not found") ∧
    get_test_pass_rate cycles (some cname) =
      ToolResult.errorField ("Test cycle \x27" ++ cname ++ "\x27 not found") := by
  have h1 : sprints.find? (fun s => s.sprint_name == sname) = none := by
    rw [List.find?_eq_none]
    intro s hmem
    simpa using hs s hmem
  have h2 : cycles.find? (fun c => c.cycle_name == cname) = none := by
    rw [List.find?_eq_none]
    intro c hmem
    simpa using hc c hmem
  constructor
  · simp [get_sprint_metrics, hse, h1]
  · simp [get_test_pass_rate, hce, h2]

/-- Witness for C9 at a concrete unknown non-empty name. -/
theorem C9_witness :
    get_sprint_metrics [demoSprintA] (some "Nope") =
      ToolResult.errorField ("Sprint \x27" ++ "Nope" ++ "\x27 not found") ∧
    get_test_pass_rate [emptyCycle] (some "Nope") =
      ToolResult.errorField ("Test cycle \x27" ++ "Nope" ++ "\x27 not found") :=
  C9_not_found [demoSprintA] [emptyCycle] "Nope" "Nope"
    (by decide) (by decide)
    (by intro s hs; simp at hs; subst hs; simp [demoSprintA])
    (by intro c hcm; simp at hcm; subst hcm; simp [emptyCycle])

theorem four_status_counts (es : List TestExecution)
    (h : ∀ e ∈ es, e.status = "passed" ∨ e.status = "failed" ∨
        e.status = "blocked" ∨ e.status = "skipped") :
    (es.filter (fun e => e.status == "passed")).length
      + (es.filter (fun e => e.status == "failed")).length
      + (es.filter (fun e => e.status == "blocked")).length
      + (es.filter (fun e => e.status == "skipped")).length = es.length := by
  induction es with
  | nil => simp
  | cons e rest ih =>
    have he := h e (List.mem_cons_self e rest)
    have hr := ih (fun x hx => h x (List.mem_cons_of_mem e hx))
    rcases he with h1 | h1 | h1 | h1 <;>
      simp [List.filter_cons, h1] <;> omega

/-- Claim C5: the pass-rate lookup reports the metrics of a cycle of the
collection; when every execution status is one of passed, failed, blocked,
skipped, the four counts sum to the total; the pass rate is passed over
total times 100 rounded to two decimals (0 when the cycle is empty) and
always lies between 0 and 100. -/
theorem C5_pass_rate :
    (∀ (cycles : List TestCycle) (oname : Option String) (r : PassRateResult),
        get_test_pass_rate cycles oname = ToolResult.ok r →
          ∃ c ∈ cycles, r = passRateOf c) ∧
    (∀ c : TestCycle,
        (∀ e ∈ c.executions, e.status = "passed" ∨ e.status = "failed" ∨
            e.status = "blocked" ∨ e.status = "skipped") →
          (passRateOf c).passed + (passRateOf c).failed + (passRateOf c).blocked
            + (passRateOf c).skipped = (passRateOf c).total_tests) ∧
    (∀ c : TestCycle,
        (passRateOf c).pass_rate =
          round2 (if 0 < (passRateOf c).total_tests then
            ((passRateOf c).passed : ℚ) / ((passRateOf c).total_tests : ℚ) * 100
          else 0) ∧
        0 ≤ (passRateOf c).pass_rate ∧ (passRateOf c).pass_rate ≤ 100) := by
  refine ⟨?_, ?_, ?_⟩
  · intro cycles oname r h
    cases oname with
    | some name =>
      by_cases hne : name = ""
      · subst hne
        cases hg : cycles.getLast? with
        | none => simp [get_test_pass_rate, hg] at h
        | some c =>
          refine ⟨c, List.mem_of_getLast?_eq_some hg, ?_⟩
          simp [get_test_pass_rate, hg] at h
          exact h.symm
      · cases hf : cycles.find? (fun c => c.cycle_name == name) with
        | none => simp [get_test_pass_rate, hne, hf] at h
        | some c =>
          refine ⟨c, List.mem_of_find?_eq_some hf, ?_⟩
          simp [get_test_pass_rate, hne, hf] at h
          exact h.symm
    | none =>
      cases hg : cycles.getLast? with
      | none => simp [get_test_pass_rate, hg] at h
      | some c =>
        refine ⟨c, List.mem_of_getLast?_eq_some hg, ?_⟩
        simp [get_test_pass_rate, hg] at h
        exact h.symm
  · intro c h
    exact four_status_counts c.executions h
  · intro c
    refine ⟨rfl, ?_, ?_⟩
    · apply round2_nonneg
      split
      · positivity
      · exact le_rfl
    · apply round2_le_100
      split
      · rename_i ht
        have hple : (c.executions.filter (fun e => e.status == "passed")).length
            ≤ c.executions.length := List.length_filter_le _ _
        rw [div_mul_eq_mul_div, div_le_iff₀ (by exact_mod_cast ht)]
        have : ((c.executions.filter (fun e => e.status == "passed")).length : ℚ)
            ≤ (c.executions.length : ℚ) := by exact_mod_cast hple
        linarith
      · norm_num

/-- Witness for C5 at a concrete lookup and a concrete cycle. -/
theorem C5_witness :
    (∃ c ∈ [demoCycle], passRateOf demoCycle = passRateOf c) ∧
    (passRateOf demoCycle).passed + (passRateOf demoCycle).failed +
      (passRateOf demoCycle).blocked + (passRateOf demoCycle).skipped =
      (passRateOf demoCycle).total_tests :=
  ⟨C5_pass_rate.1 [demoCycle] (some "Regression-Dec-Week4") (passRateOf demoCycle) rfl,
   C5_pass_rate.2.1 demoCycle (by decide)⟩

theorem sum_map_bump (ps : List (String × ℕ)) (sev : String)
    (h : (ps.map (fun p => p.1)).Nodup) (hany : ps.any (fun p => p.1 == sev) = true) :
    ((ps.map (fun p => if p.1 == sev then (p.1, p.2 + 1) else p)).map
        (fun p => p.2)).sum = ((ps.map (fun p => p.2)).sum) + 1 := by
  induction ps with
  | nil => simp at hany
  | cons p ps ih =>
    simp only [List.map_cons, List.nodup_cons] at h
    by_cases hp : (p.1 == sev) = true
    · have hpe : p.1 = sev := by simpa using hp
      have hnot : ∀ q ∈ ps, ¬ ((q.1 == sev) = true) := by
        intro q hq hqe
        have hqe2 : q.1 = sev := by simpa using hqe
        exact h.1 (by rw [hpe, ← hqe2]; exact List.mem_map_of_mem _ hq)
      have hid : ps.map (fun q => if q.1 == sev then (q.1, q.2 + 1) else q) = ps := by
        have hpt : ∀ q ∈ ps,
            (fun q => if q.1 == sev then (q.1, q.2 + 1) else q) q = id q := by
          intro q hq
          simp only [id]
          exact if_neg (hnot q hq)
        rw [List.map_congr_left hpt, List.map_id]
      rw [List.map_cons, hid, if_pos hp]
      simp only [List.map_cons, List.sum_cons]
      omega
    · have hpf : (p.1 == sev) = false := Bool.eq_false_iff.mpr hp
      have hany2 : ps.any (fun q => q.1 == sev) = true := by
        simpa [List.any_cons, hpf] using hany
      rw [List.map_cons, if_neg hp]
      simp only [List.map_cons, List.sum_cons]
      rw [ih h.2 hany2]
      omega

theorem bumpSeverity_sum (acc : List (String × ℕ)) (sev : String)
    (h : (acc.map (fun p => p.1)).Nodup) :
    ((bumpSeverity acc sev).map (fun p => p.2)).sum
      = ((acc.map (fun p => p.2)).sum) + 1 := by
  unfold bumpSeverity
  split
  · rename_i hany
    exact sum_map_bump acc sev h hany
  · simp

theorem bumpSeverity_keys_nodup (acc : List (String × ℕ)) (sev : String)
    (h : (acc.map (fun p => p.1)).Nodup) :
    ((bumpSeverity acc sev).map (fun p => p.1)).Nodup := by
  unfold bumpSeverity
  split
  · rename_i hany
    have hkeys : (acc.map (fun p => if p.1 == sev then (p.1, p.2 + 1) else p)).map
        (fun p => p.1) = acc.map (fun p => p.1) := by
      rw [List.map_map]
      apply List.map_congr_left
      intro p _
      simp only [Function.comp]
      split <;> rfl
    rw [hkeys]
    exact h
  · rename_i hany
    rw [List.map_append]
    simp only [List.map_cons, List.map_nil]
    rw [List.nodup_append]
    refine ⟨h, List.nodup_singleton sev, ?_⟩
    intro k hk hks
    rcases List.mem_map.mp hk with ⟨p, hp, hpk⟩
    have : ¬ ((p.1 == sev) = true) := by
      intro hc
      exact hany (List.any_eq_true.mpr ⟨p, hp, hc⟩)
    apply this
    simp only [List.mem_singleton] at hks
    simp [hpk, hks]

theorem foldl_bump_sum (l : List Incident) :
    ∀ acc : List (String × ℕ), (acc.map (fun p => p.1)).Nodup →
    (((l.foldl (fun acc inc => bumpSeverity acc inc.severity) acc).map
        (fun p => p.2)).sum = (acc.map (fun p => p.2)).sum + l.length) ∧
    ((l.foldl (fun acc inc => bumpSeverity acc inc.severity) acc).map
        (fun p => p.1)).Nodup := by
  induction l with
  | nil => intro acc h; exact ⟨by simp, h⟩
  | cons i rest ih =>
    intro acc h
    have hnd := bumpSeverity_keys_nodup acc i.severity h
    obtain ⟨hsum, hnd2⟩ := ih (bumpSeverity acc i.severity) hnd
    refine ⟨?_, hnd2⟩
    simp only [List.foldl_cons] at hsum ⊢
    rw [hsum, bumpSeverity_sum acc i.severity h]
    simp [List.length_cons]
    omega

theorem incident_summary_core (l : List Incident) :
    ((l.filter (fun inc => inc.resolved_at.isSome)).length
        + (l.length - (l.filter (fun inc => inc.resolved_at.isSome)).length)
        = l.length) ∧
    (((l.foldl (fun acc inc => bumpSeverity acc inc.severity) []).map
        (fun p => p.2)).sum = l.length) ∧
    ((l.map (fun inc => IncidentBrief.mk inc.id inc.title inc.severity
        inc.reported_at inc.resolved_at.isSome inc.affected_users)).length
        = l.length) ∧
    (l.length = 0 →
      (l.filter (fun inc => inc.resolved_at.isSome)).length = 0 ∧
      l.length - (l.filter (fun inc => inc.resolved_at.isSome)).length = 0 ∧
      (l.map (fun inc => inc.affected_users)).sum = 0 ∧
      l.foldl (fun acc inc => bumpSeverity acc inc.severity) [] = [] ∧
      l.map (fun inc => IncidentBrief.mk inc.id inc.title inc.severity
        inc.reported_at inc.resolved_at.isSome inc.affected_users) = []) := by
  refine ⟨?_, ?_, ?_, ?_⟩
  · have := List.length_filter_le (fun inc => inc.resolved_at.isSome) l
    omega
  · have h := (foldl_bump_sum l [] (by simp)).1
    simpa using h
  · simp
  · intro h0
    have hl : l = [] := List.length_eq_zero.mp h0
    subst hl
    simp

/-- Claim C10: the incident summary is internally consistent for every
collection, optional severity filter and day window: resolved plus
unresolved equals the total, the severity breakdown sums to the total, the
detailed list has exactly that many entries, and an empty match yields all
zeros (the operation is total, so no error is produced). -/
theorem C10_incident_summary (incidents : List Incident) (severity : Option String)
    (days : ℤ) (now : ℚ) :
    ((get_incident_summary incidents severity days now).resolved
        + (get_incident_summary incidents severity days now).unresolved
        = (get_incident_summary incidents severity days now).total_incidents) ∧
    ((((get_incident_summary incidents severity days now).by_severity).map
        (fun p => p.2)).sum
        = (get_incident_summary incidents severity days now).total_incidents) ∧
    ((get_incident_summary incidents severity days now).incidents.length
        = (get_incident_summary incidents severity days now).total_incidents) ∧
    ((get_incident_summary incidents severity days now).total_incidents = 0 →
      (get_incident_summary incidents severity days now).resolved = 0 ∧
      (get_incident_summary incidents severity days now).unresolved = 0 ∧
      (get_incident_summary incidents severity days now).affected_users_total = 0 ∧
      (get_incident_summary incidents severity days now).by_severity = [] ∧
      (get_incident_summary incidents severity days now).incidents = []) := by
  cases severity with
  | none => exact incident_summary_core _
  | some sev => exact incident_summary_core _

/-- Witness for C10 at a concrete call. -/
theorem C10_witness :
    (get_incident_summary demoIncidents none 30 86400).resolved
        + (get_incident_summary demoIncidents none 30 86400).unresolved
        = (get_incident_summary demoIncidents none 30 86400).total_incidents :=
  (C10_incident_summary demoIncidents none 30 86400).1

/-- Claim C7: the structural validator accepts exactly the reports with no
missing required section and at least 100 words (warnings never affect
validity); the missing list consists of the required keywords that do not
occur case-insensitively; a report not containing the word summary is always
invalid with summary listed as missing. -/
theorem C7_validate_report (report : List Char) :
    ((validate_report_format report).valid = true ↔
      (validate_report_format report).missing_sections = [] ∧
        100 ≤ (validate_report_format report).word_count) ∧
    ((validate_report_format report).word_count = (pyWords report).length) ∧
    (∀ sec : String, sec ∈ (validate_report_format report).missing_sections ↔
      sec ∈ required_sections ∧ isSubOf sec.toList (toLowerCs report) = false) ∧
    (isSubOf "summary".toList (toLowerCs report) = false →
      (validate_report_format report).valid = false ∧
      "summary" ∈ (validate_report_format report).missing_sections) := by
  have hmem : ∀ sec : String, sec ∈ (validate_report_format report).missing_sections ↔
      sec ∈ required_sections ∧ isSubOf sec.toList (toLowerCs report) = false := by
    intro sec
    simp only [validate_report_format, List.mem_filter]
    constructor
    · rintro ⟨h1, h2⟩
      exact ⟨h1, by simpa using h2⟩
    · rintro ⟨h1, h2⟩
      exact ⟨h1, by simpa using h2⟩
  have hvalid : (validate_report_format report).valid = true ↔
      (validate_report_format report).missing_sections = [] ∧
        100 ≤ (validate_report_format report).word_count := by
    simp only [validate_report_format]
    rw [Bool.and_eq_true, List.isEmpty_iff, List.isEmpty_iff]
    by_cases hwc : (pyWords report).length < 100
    · rw [if_pos hwc]
      constructor
      · rintro ⟨hmsg, -⟩
        exact absurd hmsg (by simp)
      · rintro ⟨-, h100⟩
        omega
    · rw [if_neg hwc]
      constructor
      · rintro ⟨-, hfil⟩
        exact ⟨hfil, by omega⟩
      · rintro ⟨hfil, -⟩
        exact ⟨rfl, hfil⟩
  refine ⟨hvalid, rfl, hmem, ?_⟩
  intro h
  have hs : "summary" ∈ (validate_report_format report).missing_sections :=
    (hmem "summary").mpr ⟨by decide, h⟩
  refine ⟨?_, hs⟩
  cases hv : (validate_report_format report).valid
  · rfl
  · exfalso
    obtain ⟨hm0, -⟩ := hvalid.mp hv
    rw [hm0] at hs
    simp at hs

/-- Witness for C7 at the empty report. -/
theorem C7_witness :
    (validate_report_format []).valid = false ∧
    "summary" ∈ (validate_report_format []).missing_sections :=
  (C7_validate_report []).2.2.2 (by decide)

/-- Claim C8: the quality score starts at 100 and loses 20 for a missing
summary marker, 15 for a missing percent-plus-numeral combination, 15 for no
problem keyword, 20 for no recommendation keyword, 15 for fewer than 3 of
the 5 coverage keywords and 15 for fewer than 2 double-newline breaks,
floored at 0; grades follow the 90/80/70/60 thresholds, the pass flag is
score at least 70, and a report with all six signals scores 100 with grade
A. -/
theorem C8_quality_score (report : List Char) :
    ((check_report_quality report).quality_score =
      max 0 (100
        - (if isSubOf "executive summary".toList (toLowerCs report) = true ∨
              isSubOf "summary".toList (toLowerCs report) = true then 0 else 20)
        - (if isSubOf "%".toList report = true ∧
              (pyWords report).any (fun w => !w.isEmpty && w.all Char.isDigit) = true
            then 0 else 15)
        - (if ∃ k ∈ (["problem", "issue", "concern", "decline", "failure"] : List String),
              isSubOf k.toList (toLowerCs report) = true then 0 else 15)
        - (if ∃ k ∈ (["recommend", "suggest", "should", "action"] : List String),
              isSubOf k.toList (toLowerCs report) = true then 0 else 20)
        - (if 3 ≤ ((["jira", "sprint", "zephyr", "test", "incident"] : List String).filter
              (fun k => isSubOf k.toList (toLowerCs report))).length then 0 else 15)
        - (if 2 ≤ countDoubleNewline report then 0 else 15))) ∧
    ((check_report_quality report).grade =
      scoreToGrade (check_report_quality report).quality_score) ∧
    ((check_report_quality report).passes_quality_check = true ↔
      70 ≤ (check_report_quality report).quality_score) ∧
    (0 ≤ (check_report_quality report).quality_score) ∧
    (isSubOf "summary".toList (toLowerCs report) = true →
      isSubOf "%".toList report = true →
      (pyWords report).any (fun w => !w.isEmpty && w.all Char.isDigit) = true →
      (∃ k ∈ (["problem", "issue", "concern", "decline", "failure"] : List String),
        isSubOf k.toList (toLowerCs report) = true) →
      (∃ k ∈ (["recommend", "suggest", "should", "action"] : List String),
        isSubOf k.toList (toLowerCs report) = true) →
      3 ≤ ((["jira", "sprint", "zephyr", "test", "incident"] : List String).filter
        (fun k => isSubOf k.toList (toLowerCs report))).length →
      2 ≤ countDoubleNewline report →
      (check_report_quality report).quality_score = 100 ∧
      (check_report_quality report).grade = "A") := by
  have hscore : (check_report_quality report).quality_score =
      max 0 (100
        - (if isSubOf "executive summary".toList (toLowerCs report) = true ∨
              isSubOf "summary".toList (toLowerCs report) = true then 0 else 20)
        - (if isSubOf "%".toList report = true ∧
              (pyWords report).any (fun w => !w.isEmpty && w.all Char.isDigit) = true
            then 0 else 15)
        - (if ∃ k ∈ (["problem", "issue", "concern", "decline", "failure"] : List String),
              isSubOf k.toList (toLowerCs report) = true then 0 else 15)
        - (if ∃ k ∈ (["recommend", "suggest", "should", "action"] : List String),
              isSubOf k.toList (toLowerCs report) = true then 0 else 20)
        - (if 3 ≤ ((["jira", "sprint", "zephyr", "test", "incident"] : List String).filter
              (fun k => isSubOf k.toList (toLowerCs report))).length then 0 else 15)
        - (if 2 ≤ countDoubleNewline report then 0 else 15)) := by
    simp only [check_report_quality, Bool.or_eq_true, Bool.and_eq_true,
      List.any_eq_true, decide_eq_true_eq]
  refine ⟨hscore, rfl, ?_, ?_, ?_⟩
  · simp only [check_report_quality, decide_eq_true_eq]
  · simp only [check_report_quality]
    exact le_max_left _ _
  · intro h1 h2 h3 h4 h5 h6 h7
    have h100 : (check_report_quality report).quality_score = 100 := by
      rw [hscore, if_pos (Or.inr h1), if_pos ⟨h2, h3⟩, if_pos h4, if_pos h5,
        if_pos h6, if_pos h7]
      norm_num
    refine ⟨h100, ?_⟩
    have hg : (check_report_quality report).grade =
        scoreToGrade (check_report_quality report).quality_score := rfl
    rw [hg, h100]
    norm_num [scoreToGrade]

/-- Witness for C8 at a concrete report containing all six signals. -/
theorem C8_witness :
    (check_report_quality demoReport).quality_score = 100 ∧
    (check_report_quality demoReport).grade = "A" :=
  (C8_quality_score demoReport).2.2.2.2 (by decide) (by decide) (by decide)
    (by decide) (by decide) (by decide) (by decide)

theorem sprintVelocityRaw_nonneg (s : Sprint) : 0 ≤ sprintVelocityRaw s := by
  unfold sprintVelocityRaw
  split
  · positivity
  · exact le_rfl

theorem round2_evalChange : round2 (-(577/24) : ℚ) = -(601/25) := by
  have h : (-(577/24) : ℚ) * 100 = -14425/6 := by norm_num
  unfold round2
  rw [h, pyRound_eq_high ((-14425 : ℚ)/6) (-2405) (by norm_num) (by norm_num)]
  norm_num

/-- Claim C2 (amended): for a nonempty sprint sequence and a positive
num_sprints, the velocity trend analyses exactly the last num_sprints
sprints (all when fewer exist); the reported velocity change is the rounded
percentage change from the first to the last windowed velocity (zero when
the first is zero) and the trend is improving above +5, declining below -5,
stable otherwise, degenerating to insufficient_data for windows of fewer
than two sprints; the [96.0, 72.92] scenario yields change -24.04 and trend
declining. -/
theorem C2_velocity_trend :
    (∀ (allSprints : List Sprint) (n : ℕ), 1 ≤ n → allSprints ≠ [] →
      ∃ r, get_velocity_trend allSprints n = ToolResult.ok r ∧
        r.sprints = (allSprints.drop (allSprints.length - n)).map
          (fun s => SprintVelocity.mk s.sprint_name (round2 (sprintVelocityRaw s))) ∧
        r.sprints.length = min n allSprints.length ∧
        (2 ≤ (lastWindowVelocities allSprints n).length →
          r.velocity_change = round2 (windowChange allSprints n) ∧
          r.trend = (if 5 < windowChange allSprints n then "improving"
            else if windowChange allSprints n < -5 then "declining" else "stable")) ∧
        ((lastWindowVelocities allSprints n).length < 2 →
          r.velocity_change = 0 ∧ r.trend = "insufficient_data")) ∧
    (∃ r2, get_velocity_trend [demoSprintA, demoSprintB] 2 = ToolResult.ok r2 ∧
      r2.velocity_change = -(601/25) ∧ r2.trend = "declining") := by
  have hmain : ∀ (allSprints : List Sprint) (n : ℕ), 1 ≤ n → allSprints ≠ [] →
      ∃ r, get_velocity_trend allSprints n = ToolResult.ok r ∧
        r.sprints = (allSprints.drop (allSprints.length - n)).map
          (fun s => SprintVelocity.mk s.sprint_name (round2 (sprintVelocityRaw s))) ∧
        r.sprints.length = min n allSprints.length ∧
        (2 ≤ (lastWindowVelocities allSprints n).length →
          r.velocity_change = round2 (windowChange allSprints n) ∧
          r.trend = (if 5 < windowChange allSprints n then "improving"
            else if windowChange allSprints n < -5 then "declining" else "stable")) ∧
        ((lastWindowVelocities allSprints n).length < 2 →
          r.velocity_change = 0 ∧ r.trend = "insufficient_data") := by
    intro allSprints n hn hne
    have hslice : pyLastSlice n allSprints = allSprints.drop (allSprints.length - n) := by
      unfold pyLastSlice
      rw [if_neg (by omega)]
    obtain ⟨s0, w', hw⟩ :
        ∃ s0 w', allSprints.drop (allSprints.length - n) = s0 :: w' := by
      cases hcase : allSprints.drop (allSprints.length - n) with
      | nil =>
        exfalso
        have hlen := congrArg List.length hcase
        simp only [List.length_drop, List.length_nil] at hlen
        have hpos : 0 < allSprints.length := List.length_pos.mpr hne
        omega
      | cons a b => exact ⟨a, b, rfl⟩
    have hvels : lastWindowVelocities allSprints n =
        (s0 :: w').map (fun s => round2 (sprintVelocityRaw s)) := by
      unfold lastWindowVelocities
      rw [hw]
    have hkey : (round2 (sprintVelocityRaw s0) ::
        List.map (fun sv => sv.velocity)
          (List.map (fun s => SprintVelocity.mk s.sprint_name
            (round2 (sprintVelocityRaw s))) w'))
        = lastWindowVelocities allSprints n := by
      rw [hvels, List.map_cons, List.map_map]
      rfl
    have hnn : 0 ≤ (lastWindowVelocities allSprints n).headI := by
      rw [hvels, List.map_cons]
      exact round2_nonneg _ (sprintVelocityRaw_nonneg s0)
    have hswap : (if 0 < (lastWindowVelocities allSprints n).headI then
        ((lastWindowVelocities allSprints n).getLastD 0
          - (lastWindowVelocities allSprints n).headI)
          / (lastWindowVelocities allSprints n).headI * 100 else 0)
        = windowChange allSprints n := by
      unfold windowChange
      rcases eq_or_lt_of_le hnn with h0 | h0
      · have hne0 : ¬ (0 : ℚ) < (lastWindowVelocities allSprints n).headI := by
          rw [← h0]
          exact lt_irrefl 0
        rw [if_neg hne0, if_pos h0.symm]
      · rw [if_pos h0, if_neg (ne_of_gt h0)]
    have hlenw := congrArg List.length hw
    simp only [List.length_drop, List.length_cons] at hlenw
    have hpos : 0 < allSprints.length := List.length_pos.mpr hne
    simp only [get_velocity_trend, hslice, hw, List.map_cons]
    refine ⟨_, rfl, ?_, ?_, ?_, ?_⟩
    · rfl
    · simp only [List.length_cons, List.length_map]
      omega
    · intro h2
      dsimp only
      rw [hkey, if_pos h2]
      dsimp only
      constructor
      · exact congrArg round2 hswap
      · rw [hswap]
    · intro h2
      dsimp only
      rw [hkey, if_neg (by omega)]
      exact ⟨round2_zero, rfl⟩
  refine ⟨hmain, ?_⟩
  have hA : round2 (sprintVelocityRaw demoSprintA) = 96 := by
    have h : sprintVelocityRaw demoSprintA = 96 := by
      norm_num [sprintVelocityRaw, demoSprintA]
    rw [h, round2_96]
  have hB : round2 (sprintVelocityRaw demoSprintB) = 7292/100 := by
    have h : sprintVelocityRaw demoSprintB = 875/12 := by
      norm_num [sprintVelocityRaw, demoSprintB]
    rw [h, round2_evalB]
  have hvels2 : lastWindowVelocities [demoSprintA, demoSprintB] 2 = [96, 7292/100] := by
    unfold lastWindowVelocities
    norm_num [hA, hB]
  have hwc : windowChange [demoSprintA, demoSprintB] 2 = -(577/24) := by
    unfold windowChange
    rw [hvels2]
    norm_num [List.headI, List.getLastD]
  obtain ⟨r, hr, -, -, htrend, -⟩ :=
    hmain [demoSprintA, demoSprintB] 2 (by norm_num) (by simp)
  obtain ⟨hch, htr⟩ := htrend (by rw [hvels2]; norm_num)
  refine ⟨r, hr, ?_, ?_⟩
  · rw [hch, hwc, round2_evalChange]
  · rw [htr, hwc]
    rw [if_neg (by norm_num), if_pos (by norm_num)]

theorem velA : round2 (sprintVelocityRaw demoSprintA) = 96 := by
  have h : sprintVelocityRaw demoSprintA = 96 := by
    norm_num [sprintVelocityRaw, demoSprintA]
  rw [h, round2_96]

/-- Counterexample for C2 as stated: with num_sprints = 0 the claim requires
an empty analysis window (the last zero sprints) and hence the
insufficient_data classification, but the Python slice `sprints[-0:]` is the
whole list, so the code analyses both sprints and reports a stable trend. -/
theorem C2_counterexample :
    ∃ r, get_velocity_trend [demoSprintA, demoSprintA] 0 = ToolResult.ok r ∧
      r.trend = "stable" ∧ r.sprints.length = 2 := by
  refine ⟨_, rfl, ?_, rfl⟩
  simp [pyLastSlice, velA, Function.comp]
  norm_num

/-- Witness for C2 at a concrete one-sprint window. -/
theorem C2_witness :
    ∃ r, get_velocity_trend [demoSprintA] 1 = ToolResult.ok r ∧
      r.trend = "insufficient_data" := by
  obtain ⟨r, hr, -, -, -, hshort⟩ :=
    C2_velocity_trend.1 [demoSprintA] 1 (by norm_num) (by simp)
  obtain ⟨-, htr⟩ := hshort (by simp [lastWindowVelocities])
  exact ⟨r, hr, htr⟩

theorem len_map_addTime (ps : List (String × List ℚ)) (sev : String) (t : ℚ)
    (h : (ps.map (fun p => p.1)).Nodup) (hany : ps.any (fun p => p.1 == sev) = true) :
    ((ps.map (fun p => if p.1 == sev then (p.1, p.2 ++ [t]) else p)).map
        (fun p => p.2.length)).sum = ((ps.map (fun p => p.2.length)).sum) + 1 := by
  induction ps with
  | nil => simp at hany
  | cons p ps ih =>
    simp only [List.map_cons, List.nodup_cons] at h
    by_cases hp : (p.1 == sev) = true
    · have hpe : p.1 = sev := by simpa using hp
      have hnot : ∀ q ∈ ps, ¬ ((q.1 == sev) = true) := by
        intro q hq hqe
        have hqe2 : q.1 = sev := by simpa using hqe
        exact h.1 (by rw [hpe, ← hqe2]; exact List.mem_map_of_mem _ hq)
      have hid : ps.map (fun q => if q.1 == sev then (q.1, q.2 ++ [t]) else q) = ps := by
        have hpt : ∀ q ∈ ps,
            (fun q => if q.1 == sev then (q.1, q.2 ++ [t]) else q) q = id q := by
          intro q hq
          simp only [id]
          exact if_neg (hnot q hq)
        rw [List.map_congr_left hpt, List.map_id]
      rw [List.map_cons, hid, if_pos hp]
      simp only [List.map_cons, List.sum_cons, List.length_append,
        List.length_cons, List.length_nil]
      omega
    · have hpf : (p.1 == sev) = false := Bool.eq_false_iff.mpr hp
      have hany2 : ps.any (fun q => q.1 == sev) = true := by
        simpa [List.any_cons, hpf] using hany
      rw [List.map_cons, if_neg hp]
      simp only [List.map_cons, List.sum_cons]
      rw [ih h.2 hany2]
      omega

theorem addTime_len_sum (acc : List (String × List ℚ)) (sev : String) (t : ℚ)
    (h : (acc.map (fun p => p.1)).Nodup) :
    ((addTime acc sev t).map (fun p => p.2.length)).sum
      = (acc.map (fun p => p.2.length)).sum + 1 := by
  unfold addTime
  split
  · rename_i hany
    exact len_map_addTime acc sev t h hany
  · simp

theorem addTime_keys_nodup (acc : List (String × List ℚ)) (sev : String) (t : ℚ)
    (h : (acc.map (fun p => p.1)).Nodup) :
    ((addTime acc sev t).map (fun p => p.1)).Nodup := by
  unfold addTime
  split
  · rename_i hany
    have hkeys : (acc.map (fun p => if p.1 == sev then (p.1, p.2 ++ [t]) else p)).map
        (fun p => p.1) = acc.map (fun p => p.1) := by
      rw [List.map_map]
      apply List.map_congr_left
      intro p _
      simp only [Function.comp]
      split <;> rfl
    rw [hkeys]
    exact h
  · rename_i hany
    rw [List.map_append]
    simp only [List.map_cons, List.map_nil]
    rw [List.nodup_append]
    refine ⟨h, List.nodup_singleton sev, ?_⟩
    intro k hk hks
    rcases List.mem_map.mp hk with ⟨p, hp, hpk⟩
    have hno : ¬ ((p.1 == sev) = true) := by
      intro hc
      exact hany (List.any_eq_true.mpr ⟨p, hp, hc⟩)
    apply hno
    simp only [List.mem_singleton] at hks
    simp [hpk, hks]

theorem addTime_nonempty (acc : List (String × List ℚ)) (sev : String) (t : ℚ)
    (h : ∀ p ∈ acc, p.2 ≠ []) :
    ∀ p ∈ addTime acc sev t, p.2 ≠ [] := by
  unfold addTime
  split
  · intro p hp
    rcases List.mem_map.mp hp with ⟨q, hq, hqp⟩
    by_cases hc : (q.1 == sev) = true
    · rw [if_pos hc] at hqp
      rw [← hqp]
      simp
    · rw [if_neg hc] at hqp
      rw [← hqp]
      exact h q hq
  · intro p hp
    rcases List.mem_append.mp hp with h1 | h1
    · exact h p h1
    · simp only [List.mem_singleton] at h1
      rw [h1]
      simp

theorem addTime_mem_keys (acc : List (String × List ℚ)) (sev : String) (t : ℚ)
    (sev' : String) :
    (∃ p ∈ addTime acc sev t, p.1 = sev') ↔
      (∃ p ∈ acc, p.1 = sev') ∨ sev' = sev := by
  unfold addTime
  split
  · rename_i hany
    constructor
    · rintro ⟨p, hp, hps⟩
      rcases List.mem_map.mp hp with ⟨q, hq, hqp⟩
      left
      refine ⟨q, hq, ?_⟩
      rw [← hps, ← hqp]
      split <;> rfl
    · rintro (⟨p, hp, hps⟩ | rfl)
      · refine ⟨_, List.mem_map_of_mem _ hp, ?_⟩
        split <;> simp [hps]
      · rcases List.any_eq_true.mp hany with ⟨q, hq, hqe⟩
        refine ⟨_, List.mem_map_of_mem _ hq, ?_⟩
        split <;> simpa using hqe
  · constructor
    · rintro ⟨p, hp, hps⟩
      rcases List.mem_append.mp hp with h1 | h1
      · exact Or.inl ⟨p, h1, hps⟩
      · right
        simp only [List.mem_singleton] at h1
        rw [← hps, h1]
    · rintro (⟨p, hp, hps⟩ | rfl)
      · exact ⟨p, List.mem_append_left _ hp, hps⟩
      · exact ⟨(sev', [t]), List.mem_append_right _ (by simp), rfl⟩

theorem severityTimes_fold (l : List Incident) :
    ∀ acc : List (String × List ℚ),
    (acc.map (fun p => p.1)).Nodup →
    (∀ p ∈ acc, p.2 ≠ []) →
    (((l.foldl (fun acc inc =>
        match inc.resolved_at with
        | some r => addTime acc inc.severity ((r - inc.reported_at) / 3600)
        | none => acc) acc).map (fun p => p.1)).Nodup) ∧
    (((l.foldl (fun acc inc =>
        match inc.resolved_at with
        | some r => addTime acc inc.severity ((r - inc.reported_at) / 3600)
        | none => acc) acc).map (fun p => p.2.length)).sum
      = (acc.map (fun p => p.2.length)).sum
        + (l.filter (fun inc => inc.resolved_at.isSome)).length) ∧
    (∀ p ∈ l.foldl (fun acc inc =>
        match inc.resolved_at with
        | some r => addTime acc inc.severity ((r - inc.reported_at) / 3600)
        | none => acc) acc, p.2 ≠ []) ∧
    (∀ sev : String, (∃ p ∈ l.foldl (fun acc inc =>
        match inc.resolved_at with
        | some r => addTime acc inc.severity ((r - inc.reported_at) / 3600)
        | none => acc) acc, p.1 = sev) ↔
      (∃ p ∈ acc, p.1 = sev) ∨
        ∃ inc ∈ l, inc.resolved_at.isSome ∧ inc.severity = sev) := by
  induction l with
  | nil =>
    intro acc hnd hne
    refine ⟨hnd, by simp, hne, ?_⟩
    intro sev
    simp
  | cons i rest ih =>
    intro acc hnd hne
    cases hres : i.resolved_at with
    | none =>
      obtain ⟨a1, a2, a3, a4⟩ := ih acc hnd hne
      simp only [List.foldl_cons, hres]
      refine ⟨a1, ?_, a3, ?_⟩
      · rw [a2]
        simp [List.filter_cons, hres]
      · intro sev
        rw [a4 sev]
        constructor
        · rintro (h1 | ⟨inc, hmem, hr⟩)
          · exact Or.inl h1
          · exact Or.inr ⟨inc, List.mem_cons_of_mem _ hmem, hr⟩
        · rintro (h1 | ⟨inc, hmem, hr⟩)
          · exact Or.inl h1
          · rcases List.mem_cons.mp hmem with heq | hmem2
            · exfalso
              rw [heq] at hr
              rw [hres] at hr
              simp at hr
            · exact Or.inr ⟨inc, hmem2, hr⟩
    | some r =>
      have hnd2 := addTime_keys_nodup acc i.severity ((r - i.reported_at) / 3600) hnd
      have hne2 := addTime_nonempty acc i.severity ((r - i.reported_at) / 3600) hne
      obtain ⟨a1, a2, a3, a4⟩ :=
        ih (addTime acc i.severity ((r - i.reported_at) / 3600)) hnd2 hne2
      simp only [List.foldl_cons, hres]
      refine ⟨a1, ?_, a3, ?_⟩
      · rw [a2, addTime_len_sum acc i.severity ((r - i.reported_at) / 3600) hnd]
        simp [List.filter_cons, hres]
        omega
      · intro sev
        rw [a4 sev, addTime_mem_keys acc i.severity ((r - i.reported_at) / 3600) sev]
        constructor
        · rintro ((h1 | hss) | ⟨inc, hmem, hr⟩)
          · exact Or.inl h1
          · exact Or.inr ⟨i, List.mem_cons_self _ _, by simp [hres, hss]⟩
          · exact Or.inr ⟨inc, List.mem_cons_of_mem _ hmem, hr⟩
        · rintro (h1 | ⟨inc, hmem, hr⟩)
          · exact Or.inl (Or.inl h1)
          · rcases List.mem_cons.mp hmem with heq | hmem2
            · left
              right
              rw [heq] at hr
              exact hr.2.symm
            · exact Or.inr ⟨inc, hmem2, hr⟩

theorem weighted_round2_bound (st : List (String × List ℚ))
    (h : ∀ p ∈ st, p.2 ≠ []) :
    |(st.map (fun p => (p.2.length : ℚ) * round2 (listMean p.2))).sum
      - (st.map (fun p => p.2.sum)).sum|
      ≤ ((st.map (fun p => p.2.length)).sum : ℚ) / 200 := by
  induction st with
  | nil => simp
  | cons p ps ih =>
    have hp := h p (List.mem_cons_self p ps)
    have hps := ih (fun q hq => h q (List.mem_cons_of_mem _ hq))
    simp only [List.map_cons, List.sum_cons]
    have hlen : (0 : ℚ) < (p.2.length : ℚ) := by
      have hz : p.2.length ≠ 0 := by simpa [List.length_eq_zero] using hp
      exact_mod_cast Nat.pos_of_ne_zero hz
    have hmean : (p.2.length : ℚ) * listMean p.2 = p.2.sum := by
      unfold listMean
      rw [if_pos (by exact_mod_cast hlen)]
      field_simp
    have hone : |(p.2.length : ℚ) * round2 (listMean p.2) - p.2.sum|
        ≤ (p.2.length : ℚ) / 200 := by
      rw [← hmean, ← mul_sub, abs_mul, abs_of_pos hlen]
      calc (p.2.length : ℚ) * |round2 (listMean p.2) - listMean p.2|
          ≤ (p.2.length : ℚ) * (1/200) :=
            mul_le_mul_of_nonneg_left (abs_round2_sub_le _) (le_of_lt hlen)
        _ = (p.2.length : ℚ) / 200 := by ring
    have htri : |(p.2.length : ℚ) * round2 (listMean p.2)
          + (ps.map (fun p => (p.2.length : ℚ) * round2 (listMean p.2))).sum
          - (p.2.sum + (ps.map (fun p => p.2.sum)).sum)|
        ≤ |(p.2.length : ℚ) * round2 (listMean p.2) - p.2.sum|
          + |(ps.map (fun p => (p.2.length : ℚ) * round2 (listMean p.2))).sum
            - (ps.map (fun p => p.2.sum)).sum| := by
      have := abs_add ((p.2.length : ℚ) * round2 (listMean p.2) - p.2.sum)
        ((ps.map (fun p => (p.2.length : ℚ) * round2 (listMean p.2))).sum
          - (ps.map (fun p => p.2.sum)).sum)
      calc |(p.2.length : ℚ) * round2 (listMean p.2)
            + (ps.map (fun p => (p.2.length : ℚ) * round2 (listMean p.2))).sum
            - (p.2.sum + (ps.map (fun p => p.2.sum)).sum)|
          = |((p.2.length : ℚ) * round2 (listMean p.2) - p.2.sum)
            + ((ps.map (fun p => (p.2.length : ℚ) * round2 (listMean p.2))).sum
              - (ps.map (fun p => p.2.sum)).sum)| := by ring_nf
        _ ≤ _ := this
    calc |(p.2.length : ℚ) * round2 (listMean p.2)
          + (ps.map (fun p => (p.2.length : ℚ) * round2 (listMean p.2))).sum
          - (p.2.sum + (ps.map (fun p => p.2.sum)).sum)|
        ≤ (p.2.length : ℚ) / 200
          + ((ps.map (fun p => p.2.length)).sum : ℚ) / 200 := by
          apply le_trans htri
          exact add_le_add hone hps
      _ = ((p.2.length : ℚ) + (ps.map (fun p => (p.2.length : ℚ))).sum) / 200 := by
          ring

/-- Claim C6: MTTR considers exactly the resolved incidents of the whole
collection (a severity appears in the mapping iff it has a resolved
incident, and the grand total counts all resolved incidents); the weighted
mean of the rounded per-severity MTTRs equals the overall MTTR within
rounding tolerance (at most 1/100 hours apart). -/
theorem C6_mttr (incidents : List Incident) :
    (∀ sev : String,
      (∃ m, (sev, m) ∈ (get_mttr_by_severity incidents).mttr_by_severity) ↔
      ∃ inc ∈ incidents, inc.resolved_at.isSome ∧ inc.severity = sev) ∧
    ((get_mttr_by_severity incidents).total_resolved_incidents
      = (incidents.filter (fun inc => inc.resolved_at.isSome)).length) ∧
    |((((get_mttr_by_severity incidents).resolved_incidents_by_severity.zip
        (get_mttr_by_severity incidents).mttr_by_severity).map
        (fun pq => (pq.1.2 : ℚ) * pq.2.2)).sum
      / ((get_mttr_by_severity incidents).total_resolved_incidents : ℚ))
      - (get_mttr_by_severity incidents).overall_mttr| ≤ 1/100 := by
  obtain ⟨hnd, hsum, hne, hkeys⟩ := severityTimes_fold incidents [] (by simp) (by simp)
  replace hne : ∀ p ∈ severityTimes incidents, p.2 ≠ [] := hne
  replace hsum : ((severityTimes incidents).map (fun p => p.2.length)).sum
      = (incidents.filter (fun inc => inc.resolved_at.isSome)).length := by
    simpa using hsum
  replace hkeys : ∀ sev : String, (∃ p ∈ severityTimes incidents, p.1 = sev) ↔
      ∃ inc ∈ incidents, inc.resolved_at.isSome ∧ inc.severity = sev := by
    intro sev
    have h := hkeys sev
    simpa using h
  refine ⟨?_, ?_, ?_⟩
  · intro sev
    simp only [get_mttr_by_severity]
    constructor
    · rintro ⟨m, hm⟩
      rcases List.mem_map.mp hm with ⟨p, hp, hpf⟩
      have hp1 : p.1 = sev := by
        have := congrArg Prod.fst hpf
        simpa using this
      exact (hkeys sev).mp ⟨p, hp, hp1⟩
    · intro hex
      rcases (hkeys sev).mpr hex with ⟨p, hp, hp1⟩
      exact ⟨round2 (listMean p.2), List.mem_map.mpr ⟨p, hp, by rw [hp1]⟩⟩
  · show ((severityTimes incidents).map (fun p => p.2)).flatten.length
      = (incidents.filter (fun inc => inc.resolved_at.isSome)).length
    rw [List.length_flatten, List.map_map]
    exact hsum
  · simp only [get_mttr_by_severity]
    have hzip : (((severityTimes incidents).map (fun p => (p.1, p.2.length))).zip
        ((severityTimes incidents).map (fun p => (p.1, round2 (listMean p.2))))).map
        (fun pq => (pq.1.2 : ℚ) * pq.2.2)
        = (severityTimes incidents).map
          (fun p => (p.2.length : ℚ) * round2 (listMean p.2)) := by
      rw [List.zip_map', List.map_map]
      rfl
    rw [hzip]
    have hlenN : ((severityTimes incidents).map (fun p => p.2)).flatten.length
        = ((severityTimes incidents).map (fun p => p.2.length)).sum := by
      rw [List.length_flatten, List.map_map]
      rfl
    have hsumE : ((severityTimes incidents).map (fun p => p.2)).flatten.sum
        = ((severityTimes incidents).map (fun p => p.2.sum)).sum := by
      rw [List.sum_flatten, List.map_map]
      rfl
    rcases Nat.eq_zero_or_pos (((severityTimes incidents).map (fun p => p.2)).flatten.length)
      with hN0 | hNpos
    · have hst : severityTimes incidents = [] := by
        cases hst : severityTimes incidents with
        | nil => rfl
        | cons p ps =>
          exfalso
          rw [hst] at hN0
          simp only [List.map_cons, List.flatten_cons, List.length_append] at hN0
          have hp2 : p.2 ≠ [] := hne p (by rw [hst]; exact List.mem_cons_self _ _)
          have : p.2.length ≠ 0 := by simpa [List.length_eq_zero] using hp2
          omega
      rw [hst]
      norm_num
    · rw [if_pos hNpos]
      have hbound := weighted_round2_bound (severityTimes incidents) hne
      have hNQ : (0 : ℚ) < (((severityTimes incidents).map (fun p => p.2)).flatten.length : ℚ) := by
        exact_mod_cast hNpos
      have hNlen : ((((severityTimes incidents).map (fun p => p.2)).flatten.length : ℕ) : ℚ)
          = ((severityTimes incidents).map (fun p => (p.2.length : ℚ))).sum := by
        rw [hlenN]
        rw [Nat.cast_list_sum, List.map_map]
        rfl
      have hE : (((severityTimes incidents).map (fun p => p.2)).flatten.sum : ℚ)
          = ((severityTimes incidents).map (fun p => p.2.sum)).sum := by
        rw [hsumE]
      set S : ℚ := ((severityTimes incidents).map
        (fun p => (p.2.length : ℚ) * round2 (listMean p.2))).sum with hS
      set E : ℚ := ((severityTimes incidents).map (fun p => p.2.sum)).sum with hEdef
      set N : ℚ := (((severityTimes incidents).map (fun p => p.2)).flatten.length : ℚ) with hNdef
      have h1 : |S / N - E / N| ≤ 1/200 := by
        rw [div_sub_div_same, abs_div, abs_of_pos hNQ]
        rw [div_le_iff₀ hNQ]
        have hb2 : |S - E| ≤ N / 200 := by
          rw [hNlen]
          exact hbound
        calc |S - E| ≤ N / 200 := hb2
          _ = 1/200 * N := by ring
      have h2 : |E / N - round2 (E / N)| ≤ 1/200 := by
        have := abs_round2_sub_le (E / N)
        rwa [abs_sub_comm]
      have hEoverall : ((severityTimes incidents).map (fun p => p.2)).flatten.sum / N
          = E / N := by
        rw [hE]
      rw [hEoverall]
      calc |S / N - round2 (E / N)|
          = |(S / N - E / N) + (E / N - round2 (E / N))| := by ring_nf
        _ ≤ |S / N - E / N| + |E / N - round2 (E / N)| := abs_add _ _
        _ ≤ 1/200 + 1/200 := add_le_add h1 h2
        _ = 1/100 := by norm_num

/-- Witness for C6 at a concrete incident collection. -/
theorem C6_witness :
    (get_mttr_by_severity demoIncidents).total_resolved_incidents
      = (demoIncidents.filter (fun inc => inc.resolved_at.isSome)).length :=
  (C6_mttr demoIncidents).2.1

theorem pass_filter_le (l : List TestExecution) (tid : String) :
    (l.filter (fun x => x.test_id == tid && x.status == "passed")).length
      ≤ (l.filter (fun x => x.test_id == tid)).length := by
  induction l with
  | nil => simp
  | cons e rest ih =>
    simp only [List.filter_cons]
    by_cases h1 : (e.test_id == tid) = true
    · by_cases h2 : (e.status == "passed") = true
      · simp only [h1, h2, Bool.and_self, if_pos]
        simp only [List.length_cons]
        omega
      · have h2f : (e.status == "passed") = false := Bool.eq_false_iff.mpr h2
        simp only [h1, h2f, Bool.true_and, Bool.false_eq_true, if_false, if_pos]
        simp only [List.length_cons]
        omega
    · have h1f : (e.test_id == tid) = false := Bool.eq_false_iff.mpr h1
      simp only [h1f, Bool.false_and, Bool.false_eq_true, if_false]
      exact ih

theorem recordExecution_step (acc : List TestAgg) (e : TestExecution)
    (past : List TestExecution)
    (h1 : ∀ a ∈ acc,
      a.total = (past.filter (fun x => x.test_id == a.test_id)).length ∧
      a.passed = (past.filter
        (fun x => x.test_id == a.test_id && x.status == "passed")).length)
    (h2 : ∀ tid : String, (∀ a ∈ acc, a.test_id ≠ tid) →
      (past.filter (fun x => x.test_id == tid)).length = 0) :
    (∀ a ∈ recordExecution acc e,
      a.total = ((past ++ [e]).filter (fun x => x.test_id == a.test_id)).length ∧
      a.passed = ((past ++ [e]).filter
        (fun x => x.test_id == a.test_id && x.status == "passed")).length) ∧
    (∀ tid : String, (∀ a ∈ recordExecution acc e, a.test_id ≠ tid) →
      ((past ++ [e]).filter (fun x => x.test_id == tid)).length = 0) := by
  by_cases hany : (acc.any (fun b => b.test_id == e.test_id)) = true
  · constructor
    · intro a ha
      unfold recordExecution at ha
      rw [if_pos hany] at ha
      rcases List.mem_map.mp ha with ⟨b, hb, rfl⟩
      obtain ⟨hb1, hb2⟩ := h1 b hb
      by_cases hbe : (b.test_id == e.test_id) = true
      · rw [if_pos hbe]
        have hbeq : b.test_id = e.test_id := by simpa using hbe
        have hm : (e.test_id == b.test_id) = true := by simp [hbeq]
        constructor
        · show b.total + 1
            = ((past ++ [e]).filter (fun x => x.test_id == b.test_id)).length
          rw [List.filter_append, List.length_append, List.filter_cons,
            List.filter_nil, hb1]
          simp [hm]
        · show b.passed + (if (e.status == "passed") = true then 1 else 0)
            = ((past ++ [e]).filter
              (fun x => x.test_id == b.test_id && x.status == "passed")).length
          rw [List.filter_append, List.length_append, List.filter_cons,
            List.filter_nil, hb2]
          by_cases hps : (e.status == "passed") = true
          · simp [hm, hps]
          · simp [hm, Bool.eq_false_iff.mpr hps]
      · rw [if_neg hbe]
        have hne2 : (e.test_id == b.test_id) = false := by
          rw [beq_eq_false_iff_ne]
          intro hc
          exact hbe (by simp [hc.symm])
        constructor
        · rw [List.filter_append, List.length_append, List.filter_cons,
            List.filter_nil, hb1]
          simp [hne2]
        · rw [List.filter_append, List.length_append, List.filter_cons,
            List.filter_nil, hb2]
          simp [hne2]
    · intro tid htid
      unfold recordExecution at htid
      rw [if_pos hany] at htid
      have hacc : ∀ b ∈ acc, b.test_id ≠ tid := by
        intro b hb
        have hti := htid _ (List.mem_map_of_mem _ hb)
        by_cases hbe : (b.test_id == e.test_id) = true
        · rw [if_pos hbe] at hti
          exact hti
        · rw [if_neg hbe] at hti
          exact hti
      have hetid : e.test_id ≠ tid := by
        rcases List.any_eq_true.mp hany with ⟨b, hb, hbe⟩
        have hbeq : b.test_id = e.test_id := by simpa using hbe
        rw [← hbeq]
        exact hacc b hb
      rw [List.filter_append, List.length_append, List.filter_cons, List.filter_nil]
      rw [h2 tid hacc]
      simp [beq_eq_false_iff_ne.mpr hetid]
  · constructor
    · intro a ha
      unfold recordExecution at ha
      rw [if_neg hany] at ha
      rcases List.mem_append.mp ha with hmem | hmem
      · obtain ⟨hb1, hb2⟩ := h1 a hmem
        have hnone : a.test_id ≠ e.test_id := by
          intro hc
          exact hany (List.any_eq_true.mpr ⟨a, hmem, by simp [hc]⟩)
        have hne2 : (e.test_id == a.test_id) = false := by
          rw [beq_eq_false_iff_ne]
          intro hc
          exact hnone hc.symm
        constructor
        · rw [List.filter_append, List.length_append, List.filter_cons,
            List.filter_nil, hb1]
          simp [hne2]
        · rw [List.filter_append, List.length_append, List.filter_cons,
            List.filter_nil, hb2]
          simp [hne2]
      · simp only [List.mem_singleton] at hmem
        subst hmem
        have hzero : (past.filter (fun x => x.test_id == e.test_id)).length = 0 := by
          apply h2
          intro b hb hc
          exact hany (List.any_eq_true.mpr ⟨b, hb, by simp [hc]⟩)
        have hzero2 : (past.filter
            (fun x => x.test_id == e.test_id && x.status == "passed")).length = 0 := by
          have := pass_filter_le past e.test_id
          omega
        constructor
        · show (1 : ℕ)
            = ((past ++ [e]).filter (fun x => x.test_id == e.test_id)).length
          rw [List.filter_append, List.length_append, List.filter_cons,
            List.filter_nil, hzero]
          simp
        · show (if (e.status == "passed") = true then 1 else 0)
            = ((past ++ [e]).filter
              (fun x => x.test_id == e.test_id && x.status == "passed")).length
          rw [List.filter_append, List.length_append, List.filter_cons,
            List.filter_nil, hzero2]
          by_cases hps : (e.status == "passed") = true
          · simp [hps]
          · simp [Bool.eq_false_iff.mpr hps]
    · intro tid htid
      unfold recordExecution at htid
      rw [if_neg hany] at htid
      have hacc : ∀ b ∈ acc, b.test_id ≠ tid := by
        intro b hb
        exact htid b (List.mem_append_left _ hb)
      have hetid : e.test_id ≠ tid :=
        htid _ (List.mem_append_right _ (List.mem_singleton_self _))
      rw [List.filter_append, List.length_append, List.filter_cons, List.filter_nil]
      rw [h2 tid hacc]
      simp [beq_eq_false_iff_ne.mpr hetid]

theorem recordExecution_counts (es : List TestExecution) :
    ∀ (acc : List TestAgg) (past : List TestExecution),
    (∀ a ∈ acc,
      a.total = (past.filter (fun x => x.test_id == a.test_id)).length ∧
      a.passed = (past.filter
        (fun x => x.test_id == a.test_id && x.status == "passed")).length) →
    (∀ tid : String, (∀ a ∈ acc, a.test_id ≠ tid) →
      (past.filter (fun x => x.test_id == tid)).length = 0) →
    ∀ a ∈ es.foldl recordExecution acc,
      a.total = ((past ++ es).filter (fun x => x.test_id == a.test_id)).length ∧
      a.passed = ((past ++ es).filter
        (fun x => x.test_id == a.test_id && x.status == "passed")).length := by
  induction es with
  | nil =>
    intro acc past h1 h2 a ha
    simpa using h1 a (by simpa using ha)
  | cons e rest ih =>
    intro acc past h1 h2
    obtain ⟨hstep1, hstep2⟩ := recordExecution_step acc e past h1 h2
    intro a ha
    simp only [List.foldl_cons] at ha
    have h := ih (recordExecution acc e) (past ++ [e]) hstep1 hstep2 a ha
    simpa [List.append_assoc] using h

theorem filter_orderedInsert_pos (v : ℚ) (a : FlakyEntry) (l : List FlakyEntry)
    (ha : a.pass_rate = v) :
    (l.orderedInsert flakyLE a).filter (fun x => x.pass_rate == v)
      = a :: l.filter (fun x => x.pass_rate == v) := by
  induction l with
  | nil =>
    simp [List.orderedInsert, List.filter_cons, ha]
  | cons b bs ih =>
    simp only [List.orderedInsert]
    by_cases hr : flakyLE a b
    · rw [if_pos hr]
      simp [List.filter_cons, ha]
    · rw [if_neg hr]
      have hb : (b.pass_rate == v) = false := by
        rw [beq_eq_false_iff_ne]
        intro he
        apply hr
        show a.pass_rate ≤ b.pass_rate
        rw [ha, he]
      simp only [List.filter_cons, hb, Bool.false_eq_true, if_false]
      exact ih

theorem filter_orderedInsert_neg (v : ℚ) (a : FlakyEntry) (l : List FlakyEntry)
    (ha : a.pass_rate ≠ v) :
    (l.orderedInsert flakyLE a).filter (fun x => x.pass_rate == v)
      = l.filter (fun x => x.pass_rate == v) := by
  have haf : (a.pass_rate == v) = false := beq_eq_false_iff_ne.mpr ha
  induction l with
  | nil =>
    simp [List.orderedInsert, List.filter_cons, haf]
  | cons b bs ih =>
    simp only [List.orderedInsert]
    by_cases hr : flakyLE a b
    · rw [if_pos hr]
      simp only [List.filter_cons, haf, Bool.false_eq_true, if_false]
    · rw [if_neg hr]
      simp only [List.filter_cons]
      by_cases hb : (b.pass_rate == v) = true
      · simp only [hb, if_pos]
        rw [ih]
      · simp only [Bool.eq_false_iff.mpr hb, Bool.false_eq_true, if_false]
        exact ih

theorem filter_insertionSort_eq (v : ℚ) (l : List FlakyEntry) :
    (l.insertionSort flakyLE).filter (fun x => x.pass_rate == v)
      = l.filter (fun x => x.pass_rate == v) := by
  induction l with
  | nil => rfl
  | cons a l ih =>
    simp only [List.insertionSort]
    by_cases ha : a.pass_rate = v
    · rw [filter_orderedInsert_pos v a _ ha, ih]
      have hat : (a.pass_rate == v) = true := by simp [ha]
      simp [List.filter_cons, hat]
    · rw [filter_orderedInsert_neg v a _ ha, ih]
      have haf : (a.pass_rate == v) = false := beq_eq_false_iff_ne.mpr ha
      simp [List.filter_cons, haf]

theorem round2_100 : round2 (100 : ℚ) = 100 := by
  have h : (100 : ℚ) * 100 = 10000 := by norm_num
  unfold round2
  rw [h, pyRound_eq_low 10000 10000 (by norm_num) (by norm_num)]
  norm_num

/-- Claim C1 (amended): the detector groups executions by test_id across all
cycles (each accumulator row counts exactly the executions, and the passed
executions, bearing its test_id); a test is listed iff its total is at least
min_executions and its pass rate lies strictly between 0 and threshold;
hence no listed test has pass rate 0, and, whenever threshold is at most 1,
none has pass rate 1; each entry reports failed = executions - passed; the
list is sorted ascending by the reported pass rate, and for each rate value
the listed entries keep their pre-sort (encounter) order. -/
theorem C1_flaky_detector (cycles : List TestCycle) (threshold : ℚ)
    (min_executions : ℕ) :
    (∀ a ∈ aggregateExecutions cycles,
      a.total = ((cycles.flatMap (fun c => c.executions)).filter
        (fun e => e.test_id == a.test_id)).length ∧
      a.passed = ((cycles.flatMap (fun c => c.executions)).filter
        (fun e => e.test_id == a.test_id && e.status == "passed")).length) ∧
    (∀ a ∈ aggregateExecutions cycles,
      min_executions ≤ a.total → 0 < flakyRate a → flakyRate a < threshold →
      flakyEntryOf a ∈ (get_flaky_tests cycles threshold min_executions).flaky_tests) ∧
    (∀ x ∈ (get_flaky_tests cycles threshold min_executions).flaky_tests,
      ∃ a ∈ aggregateExecutions cycles, x = flakyEntryOf a ∧
        min_executions ≤ a.total ∧ 0 < flakyRate a ∧ flakyRate a < threshold ∧
        x.failed = x.executions - x.passed ∧
        (threshold ≤ 1 → flakyRate a < 1)) ∧
    ((get_flaky_tests cycles threshold min_executions).flaky_tests).Pairwise
      (fun x y => x.pass_rate ≤ y.pass_rate) ∧
    (∀ v : ℚ, ((get_flaky_tests cycles threshold min_executions).flaky_tests).filter
        (fun x => x.pass_rate == v)
      = (((aggregateExecutions cycles).filter
          (isFlaky threshold min_executions)).map flakyEntryOf).filter
        (fun x => x.pass_rate == v)) ∧
    ((get_flaky_tests cycles threshold min_executions).total_flaky_tests
      = ((get_flaky_tests cycles threshold min_executions).flaky_tests).length) := by
  have hperm : List.Perm
      (get_flaky_tests cycles threshold min_executions).flaky_tests
      (((aggregateExecutions cycles).filter
        (isFlaky threshold min_executions)).map flakyEntryOf) :=
    List.perm_insertionSort flakyLE _
  have hflakyiff : ∀ a : TestAgg, isFlaky threshold min_executions a = true ↔
      (min_executions ≤ a.total ∧ 0 < flakyRate a ∧ flakyRate a < threshold) := by
    intro a
    unfold isFlaky
    simp [Bool.and_eq_true, decide_eq_true_eq, and_assoc]
  refine ⟨?_, ?_, ?_, ?_, ?_, rfl⟩
  · intro a ha
    have h := recordExecution_counts (cycles.flatMap (fun c => c.executions)) [] []
      (by simp) (by simp) a (by simpa [aggregateExecutions] using ha)
    simpa using h
  · intro a ha h1 h2 h3
    rw [hperm.mem_iff]
    exact List.mem_map_of_mem _ (List.mem_filter.mpr ⟨ha, (hflakyiff a).mpr ⟨h1, h2, h3⟩⟩)
  · intro x hx
    rw [hperm.mem_iff] at hx
    rcases List.mem_map.mp hx with ⟨a, hafil, rfl⟩
    obtain ⟨ha, hfl⟩ := List.mem_filter.mp hafil
    obtain ⟨h1, h2, h3⟩ := (hflakyiff a).mp hfl
    exact ⟨a, ha, rfl, h1, h2, h3, rfl, fun hth => lt_of_lt_of_le h3 hth⟩
  · haveI : IsTotal FlakyEntry flakyLE := ⟨fun a b => le_total a.pass_rate b.pass_rate⟩
    haveI : IsTrans FlakyEntry flakyLE := ⟨fun _ _ _ hab hbc => le_trans hab hbc⟩
    exact List.sorted_insertionSort flakyLE _
  · intro v
    exact filter_insertionSort_eq v _

/-- Counterexample for C1 as stated: with threshold = 2 (the threshold is an
arbitrary float parameter) a test that passed all 3 of its executions has
pass rate 1 strictly between 0 and the threshold, so the detector reports
it — the flaky list can contain a test with pass rate 100%. -/
theorem C1_counterexample :
    ∃ x ∈ (get_flaky_tests alwaysPassCycles 2 3).flaky_tests,
      x.passed = x.executions ∧ 0 < x.executions ∧ x.pass_rate = 100 := by
  have hagg : aggregateExecutions alwaysPassCycles =
      [{ test_id := "QT-300", test_name := "stable check", passed := 3, total := 3 }] := by
    rfl
  have hr : flakyRate { test_id := "QT-300", test_name := "stable check", passed := 3, total := 3 } = 1 := by
    unfold flakyRate
    norm_num
  have hfl : isFlaky 2 3 { test_id := "QT-300", test_name := "stable check", passed := 3, total := 3 } = true := by
    unfold isFlaky
    rw [hr]
    norm_num
  have hsorted : (get_flaky_tests alwaysPassCycles 2 3).flaky_tests
      = [flakyEntryOf { test_id := "QT-300", test_name := "stable check", passed := 3, total := 3 }] := by
    show (((aggregateExecutions alwaysPassCycles).filter
        (isFlaky 2 3)).map flakyEntryOf).insertionSort flakyLE = _
    rw [hagg]
    simp only [List.filter_cons, hfl, if_pos, List.filter_nil, List.map_cons,
      List.map_nil]
    rfl
  refine ⟨flakyEntryOf { test_id := "QT-300", test_name := "stable check", passed := 3, total := 3 },
    by rw [hsorted]; exact List.mem_singleton_self _,
    rfl, by norm_num [flakyEntryOf], ?_⟩
  show round2 (flakyRate { test_id := "QT-300", test_name := "stable check", passed := 3, total := 3 } * 100) = 100
  rw [hr, one_mul, round2_100]

/-- Witness for C1 at the pass/fail/fail scenario: test QT-205 with pass
rate 1/3 over 3 executions is reported flaky at threshold 0.7. -/
theorem C1_witness :
    flakyEntryOf { test_id := "QT-205", test_name := "payment retry", passed := 1, total := 3 }
      ∈ (get_flaky_tests demoFlakyCycles (7/10) 3).flaky_tests :=
  (C1_flaky_detector demoFlakyCycles (7/10) 3).2.1
    { test_id := "QT-205", test_name := "payment retry", passed := 1, total := 3 }
    (by decide) (by decide) (by norm_num [flakyRate]) (by norm_num [flakyRate])
